import Mathlib

set_option autoImplicit false

/-!
Verification development for the polkadots dotfile manager.

The filesystem is modelled as an association list from absolute paths (lists of
name components) to nodes (regular file with contents, directory, or symbolic
link).  Symbolic links are followed at the final path component with an ELOOP
fuel bound, mirroring the behaviour of the os.path predicates used by the
source.  Environment-variable and home-directory expansion of paths is not
modelled (the model has no environment); glob patterns are modelled with a
wildcard in the final component, hidden-name exclusion included.

Namespace Polka.Polkadots embeds the current revision of the module
(src/polkadots/polkadots.py); namespace Polka.Legacy embeds the historical
revision (src/polkadots.py).
-/

namespace Polka

/-- A filesystem path: the list of name components from the root. -/
abbrev Path := List String

/-- A filesystem node: a regular file with contents, a directory, or a
symbolic link storing its target path verbatim. -/
inductive Node where
  | file (contents : String)
  | dir
  | link (target : Path)
deriving DecidableEq, Repr

/-- A filesystem state: an association list from paths to nodes.  Lookup takes
the first matching entry; states are compared extensionally via FS.equiv. -/
abbrev FS := List (Path × Node)

namespace FS

/-- Look up the node stored at a path, first match wins. -/
def lookup (p : Path) : FS → Option Node
  | [] => none
  | (q, n) :: t => if q = p then some n else lookup p t

/-- Store a node at a path: replace the first entry for the path, or append a
new entry at the end. -/
def set (p : Path) (n : Node) : FS → FS
  | [] => [(p, n)]
  | (q, m) :: t => if q = p then (p, n) :: t else (q, m) :: set p n t

/-- Delete every entry stored at a path. -/
def remove (p : Path) : FS → FS
  | [] => []
  | (q, n) :: t => if q = p then remove p t else (q, n) :: remove p t

/-- Extensional equality of filesystem states. -/
def equiv (s₁ s₂ : FS) : Prop := ∀ p, lookup p s₁ = lookup p s₂

/-- The keys carried by the entry list. -/
def keysOf (s : FS) : List Path := s.map (·.1)

/-- A decidable sufficient check for extensional equality of two states. -/
def agree (s₁ s₂ : FS) : Bool :=
  (keysOf s₁ ++ keysOf s₂).all (fun k => lookup k s₁ == lookup k s₂)

end FS

/-- Maximum number of symbolic links followed in a chain, mirroring the OS
ELOOP limit. -/
def maxLinks : Nat := 40

/-- Follow the chain of symbolic links at the final path component, returning
the terminal path (whose entry is a file, a directory, or absent); none models
an ELOOP failure. -/
def resolveW (s : FS) (fuel : Nat) (p : Path) : Option Path :=
  match FS.lookup p s with
  | some (.link t) =>
    match fuel with
    | 0 => none
    | fuel' + 1 => resolveW s fuel' t
  | _ => some p

/-- Resolve the final component of a path through symbolic links. -/
def resolvePath (p : Path) (s : FS) : Option Path := resolveW s maxLinks p

/-- Model of os.path.islink: the entry itself is a symbolic link (no
following of the final component). -/
def islinkF (p : Path) (s : FS) : Bool :=
  match FS.lookup p s with
  | some (.link _) => true
  | _ => false

/-- Model of os.path.exists: follows symbolic links, so a dangling link does
not exist. -/
def existsF (p : Path) (s : FS) : Bool :=
  match resolvePath p s with
  | some q => (FS.lookup q s).isSome
  | none => false

/-- Model of os.path.isdir: follows symbolic links to a directory. -/
def isDirF (p : Path) (s : FS) : Bool :=
  match resolvePath p s with
  | some q =>
    match FS.lookup q s with
    | some .dir => true
    | _ => false
  | none => false

/-- Creating an entry at a path requires its parent to be the root or a
directory (following links). -/
def parentOkF (p : Path) (s : FS) : Bool :=
  !p.isEmpty && (p.dropLast.isEmpty || isDirF p.dropLast s)

/-- Final name component of a path. -/
def basename (p : Path) : String := p.getLastD ""

/-- The names of the entries directly inside directory q, in the entry order
of the state (a deterministic stand-in for the unspecified OS listing
order). -/
def childNames (q : Path) (s : FS) : List String :=
  s.foldr
    (fun e acc => if e.1 ≠ [] ∧ e.1.dropLast = q then basename e.1 :: acc else acc)
    []

/-- Fuel-driven wildcard matcher; every recursive call shrinks the combined
length of pattern and name, so the initial fuel below always suffices. -/
def wildMatchF : Nat → List Char → List Char → Bool
  | 0, _, _ => false
  | fuel + 1, pat, name =>
    match pat, name with
    | [], [] => true
    | [], _ :: _ => false
    | pc :: pt, [] => pc = '*' && wildMatchF fuel pt []
    | pc :: pt, c :: nt =>
      if pc = '*' then wildMatchF fuel pt (c :: nt) || wildMatchF fuel (pc :: pt) nt
      else pc = c && wildMatchF fuel pt nt

/-- Wildcard match of a pattern against a name; only the star wildcard of
fnmatch is modelled. -/
def wildMatch (pat name : List Char) : Bool :=
  wildMatchF (pat.length + name.length + 1) pat name

/-- Is a name hidden, that is, does it start with a dot? -/
def hiddenName (n : String) : Bool :=
  match n.data with
  | c :: _ => c = '.'
  | [] => false

/-- Name match as used by glob: fnmatch, plus the rule that hidden names are
only matched by patterns that themselves start with a dot. -/
def globNameMatch (pat name : String) : Bool :=
  if hiddenName name && !hiddenName pat then false
  else wildMatch pat.data name.data

/-- Does a pattern component contain the star wildcard? -/
def hasWild (comp : String) : Bool := comp.data.contains '*'

/-- The names a wildcard pattern component is matched against: the listing
of the pattern directory (the root listing for a bare pattern), or nothing
when that listing fails. -/
def globNames (dirn : Path) (s : FS) : Option (List String) :=
  if dirn.isEmpty then some (childNames [] s)
  else
    match resolvePath dirn s with
    | some q =>
      match FS.lookup q s with
      | some .dir => some (childNames q s)
      | _ => none
    | none => none

/-- Model of glob.glob: a wildcard is supported in the final component only;
a pattern without a wildcard matches itself exactly when its entry exists
(lexists).  Listing failures yield no matches, as in the source library. -/
def glob (pat : Path) (s : FS) : List Path :=
  match pat.getLast? with
  | none => []
  | some last =>
    if hasWild last then
      match globNames pat.dropLast s with
      | some ns =>
        (ns.filter (fun n => globNameMatch last n)).map (fun n => pat.dropLast ++ [n])
      | none => []
    else
      if (FS.lookup pat s).isSome then [pat] else []

/-- Failure signals surfaced by the modelled operations.  The notALink and
missingAction constructors mirror the two exception classes the source
defines (missingAction is never produced by any modelled operation, just as
the source never raises its MissingAction class); keyError mirrors the
KeyError raised by the malformed str.format call in the current rmlink
(a named replacement field given only a positional argument); the rest
mirror OS error types the source lets propagate. -/
inductive Err where
  | fileNotFound
  | notALink
  | missingAction
  | keyError
  | fileExists
  | isADirectory
  | notADirectory
  | sameFileError
  | tooManyLinks
deriving DecidableEq, Repr

/-- Outcome of executing actions: an optional first error (execution stops
there), the resulting filesystem, and the warning diagnostics emitted (the
paths of files skipped by CopyAction). -/
structure Res where
  err : Option Err
  fs : FS
  warns : List Path
deriving DecidableEq, Repr

/-- Model of os.symlink: fails if the new path exists at all (even as a
dangling link) or its parent is missing; stores the target verbatim. -/
def symlinkOp (target newpath : Path) (s : FS) : Except Err FS :=
  if (FS.lookup newpath s).isSome then .error .fileExists
  else if parentOkF newpath s then .ok (FS.set newpath (.link target) s)
  else .error .fileNotFound

/-- Model of opening a path for binary write: resolve the final symbolic
link chain and return the path that will be (over)written. -/
def openWb (p : Path) (s : FS) : Except Err Path :=
  match resolvePath p s with
  | none => .error .tooManyLinks
  | some q =>
    match FS.lookup q s with
    | some .dir => .error .isADirectory
    | some (.file _) => .ok q
    | some (.link _) => .error .tooManyLinks
    | none => if parentOkF q s then .ok q else .error .fileNotFound

/-- Model of reading a file whole: resolve links, return the contents. -/
def readF (p : Path) (s : FS) : Except Err String :=
  match resolvePath p s with
  | none => .error .tooManyLinks
  | some q =>
    match FS.lookup q s with
    | some (.file c) => .ok c
    | some .dir => .error .isADirectory
    | some (.link _) => .error .tooManyLinks
    | none => .error .fileNotFound

/-- Model of os.listdir: follows links to a directory and lists its entry
names. -/
def listdirF (p : Path) (s : FS) : Except Err (List String) :=
  match resolvePath p s with
  | none => .error .tooManyLinks
  | some q =>
    match FS.lookup q s with
    | some .dir => .ok (childNames q s)
    | some _ => .error .notADirectory
    | none => .error .fileNotFound

/-- Model of os.path.samefile as used by shutil.copy: true when both paths
resolve to the same existing entry; any resolution failure counts as
false. -/
def samefileF (a b : Path) (s : FS) : Bool :=
  match resolvePath a s, resolvePath b s with
  | some x, some y => x = y && (FS.lookup x s).isSome
  | _, _ => false

namespace Polkadots

/-- Model of get_intuitive_path from src/polkadots/polkadots.py: joins the
path onto the dotfile repository base.  Environment-variable and
home-directory expansion and the strict canonicalization of the base are
not modelled (the model has no environment). -/
def get_intuitive_path (path base : Path) : Path := base ++ path

/-- Model of rmlink from src/polkadots/polkadots.py.  On an absent path with
ignore_absent unset the source never reaches its raise of FileNotFoundError:
the message expression is a str.format call that supplies only a positional
argument to a template whose single replacement field is named (link), so
evaluating the argument of the raise aborts with KeyError first. -/
def rmlink (link : Path) (ignore_absent : Bool) (s : FS) : Res :=
  if islinkF link s then ⟨none, FS.remove link s, []⟩
  else if !existsF link s then
    if ignore_absent then ⟨none, s, []⟩ else ⟨some .keyError, s, []⟩
  else ⟨some .notALink, s, []⟩

/-- Model of the inner symlink_replacing of SymlinkAction.execute: remove
the destination if it is a link, then create the new link. -/
def symlink_replacing (src dest : Path) (r : Res) : Res :=
  if r.err.isSome then r
  else
    let r1 := rmlink dest true r.fs
    match r1.err with
    | some e => { r with err := some e, fs := r1.fs }
    | none =>
      match symlinkOp src dest r1.fs with
      | .ok s' => { r with fs := s' }
      | .error e => { r with err := some e, fs := r1.fs }

structure SymlinkAction where
  source : Path
  destination : Path
  dir_mode : Bool
deriving DecidableEq, Repr

/-- Model of SymlinkAction.execute from src/polkadots/polkadots.py:
directory mode links every entry of the source directory by name into the
destination; otherwise, when the destination is a real (non-link) directory
the glob matches of the source are linked into it by basename, and in the
remaining single case the destination itself is guard-replaced. -/
def SymlinkAction.execute (a : SymlinkAction) (s : FS) : Res :=
  if a.dir_mode then
    match listdirF a.source s with
    | .error e => ⟨some e, s, []⟩
    | .ok names =>
      names.foldl
        (fun r f => symlink_replacing (a.source ++ [f]) (a.destination ++ [f]) r)
        ⟨none, s, []⟩
  else
    if isDirF a.destination s && !islinkF a.destination s then
      (glob a.source s).foldl
        (fun r m => symlink_replacing m (a.destination ++ [basename m]) r)
        ⟨none, s, []⟩
    else
      symlink_replacing a.source a.destination ⟨none, s, []⟩

structure CopyAction where
  source : Path
  destination : Path
  dir_mode : Bool
  overwrite : Bool
deriving DecidableEq, Repr

/-- Model of shutil.copy: when the destination is a directory the file goes
to the matching basename inside it; copying a file onto itself is refused;
otherwise the source is read and the resolved destination overwritten. -/
def shutil_copy (f d : Path) (s : FS) : Except Err FS :=
  let dst := if isDirF d s then d ++ [basename f] else d
  if samefileF f dst s then .error .sameFileError
  else
    match readF f s with
    | .error e => .error e
    | .ok c =>
      match openWb dst s with
      | .error e => .error e
      | .ok q => .ok (FS.set q (.file c) s)

/-- One iteration of the CopyAction.execute loop over the files to copy. -/
def copyStep (a : CopyAction) (r : Res) (f : Path) : Res :=
  if r.err.isSome then r
  else if isDirF a.destination r.fs then
    if existsF (a.destination ++ [basename f]) r.fs && !a.overwrite then
      { r with warns := r.warns ++ [f] }
    else
      match shutil_copy f a.destination r.fs with
      | .ok s' => { r with fs := s' }
      | .error e => { r with err := some e }
  else if existsF a.destination r.fs && !a.overwrite then
    { r with warns := r.warns ++ [f] }
  else
    match shutil_copy f a.destination r.fs with
    | .ok s' => { r with fs := s' }
    | .error e => { r with err := some e }

/-- Model of CopyAction.execute from src/polkadots/polkadots.py: the file
list is computed once up front (the whole source listing in directory mode),
then each file is skipped with a warning or copied. -/
def CopyAction.execute (a : CopyAction) (s : FS) : Res :=
  let filesE : Except Err (List Path) :=
    if a.dir_mode then
      match listdirF a.source s with
      | .error e => .error e
      | .ok ns => .ok (ns.map (fun n => a.source ++ [n]))
    else .ok [a.source]
  match filesE with
  | .error e => ⟨some e, s, []⟩
  | .ok files => files.foldl (copyStep a) ⟨none, s, []⟩

structure CatAction where
  sources : List Path
  destination : Path
deriving DecidableEq, Repr

/-- One source step of CatAction.execute: read the source in the current
state and append its contents to the output file q.  The second accumulator
component carries the bytes written so far. -/
def catStep (q : Path) (acc : Res × String) (src : Path) : Res × String :=
  if acc.1.err.isSome then acc
  else
    match readF src acc.1.fs with
    | .error e => ({ acc.1 with err := some e }, acc.2)
    | .ok c => ({ acc.1 with fs := FS.set q (.file (acc.2 ++ c)) acc.1.fs }, acc.2 ++ c)

/-- Model of CatAction.execute from src/polkadots/polkadots.py: opening the
destination for write truncates it immediately, then each source is read and
its contents appended in turn; a read failure aborts with the partial
contents already written. -/
def CatAction.execute (a : CatAction) (s : FS) : Res :=
  match openWb a.destination s with
  | .error e => ⟨some e, s, []⟩
  | .ok q =>
    (a.sources.foldl (catStep q) (⟨none, FS.set q (.file "") s, []⟩, "")).1

structure MkdirAction where
  directory : Path
  parents : Bool
deriving DecidableEq, Repr

/-- Create one directory level with the exist_ok behaviour of Path.mkdir:
an existing directory (also through a link) is fine, any other existing
entry is an error, and a missing parent is an error. -/
def mkdirStep (st : Option Err × FS) (q : Path) : Option Err × FS :=
  match st.1 with
  | some _ => st
  | none =>
    match FS.lookup q st.2 with
    | some .dir => st
    | some (.link _) => if isDirF q st.2 then st else (some .fileExists, st.2)
    | some (.file _) => (some .fileExists, st.2)
    | none => if parentOkF q st.2 then (none, FS.set q .dir st.2) else (some .fileNotFound, st.2)

/-- The chain of prefixes of a path, shortest first. -/
def ancestorsOf (p : Path) : List Path :=
  (List.range p.length).map (fun i => p.take (i + 1))

/-- Model of MkdirAction.execute from src/polkadots/polkadots.py: Path.mkdir
with exist_ok set, creating the missing ancestors first when parents is
set.  A failure partway leaves the directories already created. -/
def MkdirAction.execute (a : MkdirAction) (s : FS) : Res :=
  let qs := if a.parents then ancestorsOf a.directory else [a.directory]
  let st := qs.foldl mkdirStep (none, s)
  ⟨st.1, st.2, []⟩

/-- A constructed action of any variant. -/
inductive ActionVal where
  | symlink (a : SymlinkAction)
  | copy (a : CopyAction)
  | cat (a : CatAction)
  | mkdir (a : MkdirAction)
deriving DecidableEq, Repr

/-- Execute one action: dispatch on the variant. -/
def executeAction (a : ActionVal) (s : FS) : Res :=
  match a with
  | .symlink a => a.execute s
  | .copy a => a.execute s
  | .cat a => a.execute s
  | .mkdir a => a.execute s

/-- One step of the executor loop: run the action on the running state,
stopping at the first error. -/
def execStep (r : Res) (a : ActionVal) : Res :=
  if r.err.isSome then r
  else
    let r' := executeAction a r.fs
    { err := r'.err, fs := r'.fs, warns := r.warns ++ r'.warns }

/-- Sequential execution of a list of actions; the first failure aborts. -/
def runActions (acts : List ActionVal) (s : FS) : Res :=
  acts.foldl execStep ⟨none, s, []⟩

/-- Model of the executor loop at the end of main: iterate the actions in
order and, unless dry_run is set, execute each one. -/
def mainRun (acts : List ActionVal) (dry_run : Bool) (s : FS) : Res :=
  acts.foldl (fun r a => if dry_run then r else execStep r a) ⟨none, s, []⟩

/-- A configuration field value: a path-valued string (already split into
components), a boolean, or some other string. -/
inductive FieldVal where
  | path (p : Path)
  | bool (b : Bool)
  | str (v : String)
deriving DecidableEq, Repr

/-- A raw action descriptor: the field mapping read from configuration,
including its type field. -/
abbrev Descriptor := List (String × FieldVal)

/-- First-match lookup of a descriptor field. -/
def getField (k : String) : Descriptor → Option FieldVal
  | [] => none
  | (k', v) :: t => if k' = k then some v else getField k t

/-- Python truthiness of a field value, as applied to the flag fields. -/
def truthy : FieldVal → Bool
  | .bool b => b
  | .path p => !p.isEmpty
  | .str v => !v.isEmpty

/-- Failure signals of the descriptor-to-action translation: TypeError from
Python argument binding, and AttributeError from the reflective module
lookup in get_actions.  No construction path produces the MissingAction
error the source declares. -/
inductive BuildErr where
  | typeError
  | attributeError (name : String)
deriving DecidableEq, Repr

/-- Every constructor is invoked as klass(dotfile_repo=dotfile_repo,
**action): a descriptor field named dotfile_repo collides with the explicit
keyword, and one named self collides with the bound instance, so Python
argument binding raises TypeError for either name before the constructor
body runs, catch-all parameter or not. -/
def duplicateKeyword (fields : Descriptor) : Bool :=
  fields.any (fun kv => kv.1 == "dotfile_repo" || kv.1 == "self")

/-- Model of SymlinkAction.__init__: requires source and destination,
dir_mode defaults to false, and every other keyword field is absorbed by the
catch-all parameter and ignored — except a field colliding with the bound
arguments of the call, which fails argument binding. -/
def mkSymlinkAction (dotfile_repo : Path) (fields : Descriptor) :
    Except BuildErr SymlinkAction :=
  if duplicateKeyword fields then .error .typeError
  else
    match getField "source" fields, getField "destination" fields with
    | some (.path src), some (.path dst) =>
      .ok { source := get_intuitive_path src dotfile_repo
            destination := get_intuitive_path dst dotfile_repo
            dir_mode := (getField "dir_mode" fields).elim false truthy }
    | _, _ => .error .typeError

/-- Model of CopyAction.__init__: requires source and destination, dir_mode
and overwrite default to false, and every other keyword field is absorbed by
the catch-all parameter and ignored — except a field colliding with the
bound arguments of the call, which fails argument binding. -/
def mkCopyAction (dotfile_repo : Path) (fields : Descriptor) :
    Except BuildErr CopyAction :=
  if duplicateKeyword fields then .error .typeError
  else
    match getField "source" fields, getField "destination" fields with
    | some (.path src), some (.path dst) =>
      .ok { source := get_intuitive_path src dotfile_repo
            destination := get_intuitive_path dst dotfile_repo
            dir_mode := (getField "dir_mode" fields).elim false truthy
            overwrite := (getField "overwrite" fields).elim false truthy }
    | _, _ => .error .typeError

/-- Model of CatAction.__init__: requires destination; the sources parameter
is positional-only, so keyword construction from a descriptor always yields
an empty source list, and every other keyword field is absorbed by the
catch-all parameter and ignored — except a field colliding with the bound
arguments of the call, which fails argument binding. -/
def mkCatAction (dotfile_repo : Path) (fields : Descriptor) :
    Except BuildErr CatAction :=
  if duplicateKeyword fields then .error .typeError
  else
    match getField "destination" fields with
    | some (.path dst) =>
      .ok { sources := []
            destination := get_intuitive_path dst dotfile_repo }
    | _ => .error .typeError

/-- The declared parameter names of MkdirAction.__init__, which has no
catch-all keyword parameter. -/
def mkdirKnownFields : List String := ["directory", "parents"]

/-- Model of MkdirAction.__init__: any field outside the declared parameters
is rejected by Python argument binding with a TypeError. -/
def mkMkdirAction (dotfile_repo : Path) (fields : Descriptor) :
    Except BuildErr MkdirAction :=
  if fields.any (fun kv => !(mkdirKnownFields.contains kv.1)) then .error .typeError
  else
    match getField "directory" fields with
    | some (.path d) =>
      .ok { directory := get_intuitive_path d dotfile_repo
            parents := (getField "parents" fields).elim true truthy }
    | _ => .error .typeError

/-- Model of the reflective lookup getattr(module, type) followed by the
constructor call: the four action classes are the attributes an action type
name can meaningfully resolve to; any other name raises AttributeError. -/
def buildOne (ty : String) (dotfile_repo : Path) (fields : Descriptor) :
    Except BuildErr ActionVal :=
  if ty = "SymlinkAction" then (mkSymlinkAction dotfile_repo fields).map .symlink
  else if ty = "CopyAction" then (mkCopyAction dotfile_repo fields).map .copy
  else if ty = "CatAction" then (mkCatAction dotfile_repo fields).map .cat
  else if ty = "MkdirAction" then (mkMkdirAction dotfile_repo fields).map .mkdir
  else .error (.attributeError ty)

/-- The type name of a descriptor. -/
def typeOf (fields : Descriptor) : String :=
  match getField "type" fields with
  | some (.str name) => name
  | _ => ""

/-- Model of get_actions from src/polkadots/polkadots.py: process the
descriptors in order, looking each type name up reflectively and calling the
constructor with every descriptor field (the type field included) as a
keyword.  The first failure propagates and no list is returned. -/
def get_actions : List Descriptor → Path → Except BuildErr (List ActionVal)
  | [], _ => .ok []
  | action :: rest, dotfile_repo =>
    match buildOne (typeOf action) dotfile_repo action with
    | .error e => .error e
    | .ok a =>
      match get_actions rest dotfile_repo with
      | .error e => .error e
      | .ok built => .ok (a :: built)

end Polkadots

namespace Legacy

/-- Model of get_intuitive_path from the historical src/polkadots.py, which
resolves against the current working directory; the model keeps the path. -/
def get_intuitive_path (path : Path) : Path := path

/-- Model of rmlink from the historical src/polkadots.py: the first guard
tests existence (which follows links) before testing islink, so a dangling
symbolic link falls into the does-not-exist branch instead. -/
def rmlink (link : Path) (ignore_absent : Bool) (s : FS) : Res :=
  if existsF link s && islinkF link s then ⟨none, FS.remove link s, []⟩
  else if !existsF link s then
    if ignore_absent then ⟨none, s, []⟩ else ⟨some .fileNotFound, s, []⟩
  else ⟨some .notALink, s, []⟩

structure SymlinkAction where
  source : Path
  destination : Path
  dir_mode : Bool
deriving DecidableEq, Repr

/-- Remove-then-link against one destination, with the historical rmlink. -/
def replaceOne (src dest : Path) (r : Res) : Res :=
  if r.err.isSome then r
  else
    let r1 := rmlink dest true r.fs
    match r1.err with
    | some e => { r with err := some e, fs := r1.fs }
    | none =>
      match symlinkOp src dest r1.fs with
      | .ok s' => { r with fs := s' }
      | .error e => { r with err := some e, fs := r1.fs }

/-- One entry of the historical directory-mode loop: rmlink is called on the
destination directory itself (not on the entry), and the link created at
destination/f stores the bare name f as its target. -/
def dirStep (a : SymlinkAction) (r : Res) (f : String) : Res :=
  if r.err.isSome then r
  else
    let r1 := rmlink a.destination true r.fs
    match r1.err with
    | some e => { r with err := some e, fs := r1.fs }
    | none =>
      match symlinkOp [f] (a.destination ++ [f]) r1.fs with
      | .ok s' => { r with fs := s' }
      | .error e => { r with err := some e, fs := r1.fs }

/-- Model of SymlinkAction.execute from the historical src/polkadots.py. -/
def SymlinkAction.execute (a : SymlinkAction) (s : FS) : Res :=
  if a.dir_mode then
    match listdirF a.source s with
    | .error e => ⟨some e, s, []⟩
    | .ok names => names.foldl (dirStep a) ⟨none, s, []⟩
  else
    replaceOne a.source a.destination ⟨none, s, []⟩

end Legacy

/-- The concrete starting state of the claim C7 scenario: a source directory
with entries a, b, c and an empty destination directory. -/
def claim7start : FS :=
  [(["s"], Node.dir), (["s", "a"], Node.file "x"), (["s", "b"], Node.file "y"),
   (["s", "c"], Node.file "z"), (["d"], Node.dir)]

/-- The expected final state of the claim C7 scenario: one link per source
entry, named by basename, targeting the corresponding path under the
source. -/
def claim7final : FS :=
  claim7start ++
    [(["d", "a"], Node.link ["s", "a"]), (["d", "b"], Node.link ["s", "b"]),
     (["d", "c"], Node.link ["s", "c"])]

/-- Pure scan of Concatenate sources against a fixed state: the first read
failure, if any, and the bytes successfully concatenated before it. -/
def catScan (srcs : List Path) (s : FS) (acc : Option Err × String) : Option Err × String :=
  srcs.foldl
    (fun acc src =>
      match acc.1 with
      | some _ => acc
      | none =>
        match readF src s with
        | .error e => (some e, acc.2)
        | .ok c => (none, acc.2 ++ c))
    acc

/-- Proof-side view of the symlink folds: process source-destination pairs
in declared order with the guard-then-link step. -/
def linkFold (pairs : List (Path × Path)) (u : Res) : Res :=
  pairs.foldl (fun r pr => Polkadots.symlink_replacing pr.1 pr.2 r) u

/-- Target invariant of one mkdir level: the path is a directory entry or a
link that resolves to a directory. -/
def dirEntryOk (q : Path) (s : FS) : Prop :=
  FS.lookup q s = some .dir ∨ ((∃ t, FS.lookup q s = some (.link t)) ∧ isDirF q s = true)

/-! Lemmas about the primitive filesystem state operations. -/

namespace FS

theorem equiv_refl (s : FS) : equiv s s := fun _ => rfl

theorem equiv_symm {s₁ s₂ : FS} (h : equiv s₁ s₂) : equiv s₂ s₁ := fun p => (h p).symm

theorem equiv_trans {s₁ s₂ s₃ : FS} (h : equiv s₁ s₂) (h' : equiv s₂ s₃) : equiv s₁ s₃ :=
  fun p => (h p).trans (h' p)

@[simp] theorem lookup_set_self (p : Path) (n : Node) (s : FS) :
    lookup p (set p n s) = some n := by
  induction s with
  | nil => simp [set, lookup]
  | cons e t ih =>
    obtain ⟨q, m⟩ := e
    by_cases h : q = p <;> simp [set, lookup, h, ih]

theorem lookup_set_ne (p q : Path) (n : Node) (s : FS) (h : q ≠ p) :
    lookup q (set p n s) = lookup q s := by
  have h' : p ≠ q := Ne.symm h
  induction s with
  | nil => simp [set, lookup, h']
  | cons e t ih =>
    obtain ⟨r, m⟩ := e
    by_cases hr : r = p
    · subst hr; simp [set, lookup, h']
    · by_cases hq : r = q
      · subst hq; simp [set, lookup, hr]
      · simp [set, lookup, hr, hq, ih]

theorem lookup_set (p q : Path) (n : Node) (s : FS) :
    lookup q (set p n s) = if q = p then some n else lookup q s := by
  by_cases h : q = p
  · subst h; simp
  · simp [h, lookup_set_ne p q n s h]

@[simp] theorem lookup_remove_self (p : Path) (s : FS) :
    lookup p (remove p s) = none := by
  induction s with
  | nil => simp [remove, lookup]
  | cons e t ih =>
    obtain ⟨q, m⟩ := e
    by_cases h : q = p <;> simp [remove, lookup, h, ih]

theorem lookup_remove_ne (p q : Path) (s : FS) (h : q ≠ p) :
    lookup q (remove p s) = lookup q s := by
  induction s with
  | nil => simp [remove, lookup]
  | cons e t ih =>
    obtain ⟨r, m⟩ := e
    by_cases hr : r = p
    · subst hr; simp [remove, lookup, Ne.symm h, ih]
    · by_cases hq : r = q
      · subst hq; simp [remove, lookup, hr]
      · simp [remove, lookup, hr, hq, ih]

theorem lookup_remove (p q : Path) (s : FS) :
    lookup q (remove p s) = if q = p then none else lookup q s := by
  by_cases h : q = p
  · subst h; simp
  · simp [h, lookup_remove_ne p q s h]

/-- Setting a path twice collapses to the second write. -/
theorem set_set_self (p : Path) (n m : Node) (s : FS) :
    set p n (set p m s) = set p n s := by
  induction s with
  | nil => simp [set]
  | cons e t ih =>
    obtain ⟨q, v⟩ := e
    by_cases h : q = p <;> simp [set, h, ih]

/-- Removing a path undoes a set of that path. -/
theorem remove_set_self (p : Path) (n : Node) (s : FS) :
    remove p (set p n s) = remove p s := by
  induction s with
  | nil => simp [remove, set]
  | cons e t ih =>
    obtain ⟨q, v⟩ := e
    by_cases h : q = p <;> simp [remove, set, h, ih]

/-- Writing back the value already stored at a path changes nothing. -/
theorem set_of_lookup_eq (p : Path) (n : Node) (s : FS) (h : lookup p s = some n) :
    set p n s = s := by
  induction s with
  | nil => simp [lookup] at h
  | cons e t ih =>
    obtain ⟨q, v⟩ := e
    by_cases hq : q = p
    · subst hq
      simp only [lookup, if_pos trivial, Option.some.injEq] at h
      simp [set, h]
    · simp only [lookup, if_neg hq] at h
      simp [set, hq, ih h]

/-- Removing an absent path changes nothing. -/
theorem remove_of_lookup_none (p : Path) (s : FS) (h : lookup p s = none) :
    remove p s = s := by
  induction s with
  | nil => simp [remove]
  | cons e t ih =>
    obtain ⟨q, v⟩ := e
    by_cases hq : q = p
    · subst hq; simp [lookup] at h
    · simp only [lookup, if_neg hq] at h
      simp [remove, hq, ih h]


theorem lookup_eq_none_of_not_mem_keys {p : Path} {s : FS} (h : p ∉ keysOf s) :
    lookup p s = none := by
  induction s with
  | nil => rfl
  | cons e t ih =>
    obtain ⟨q, n⟩ := e
    simp only [keysOf, List.map_cons, List.mem_cons] at h
    push_neg at h
    have ht : lookup p t = none := ih h.2
    simp [lookup, Ne.symm h.1, ht]


theorem equiv_of_agree {s₁ s₂ : FS} (h : agree s₁ s₂ = true) : equiv s₁ s₂ := by
  intro p
  by_cases hp : p ∈ keysOf s₁ ++ keysOf s₂
  · exact beq_iff_eq.mp (List.all_eq_true.mp h p hp)
  · rw [List.mem_append] at hp
    push_neg at hp
    rw [lookup_eq_none_of_not_mem_keys hp.1, lookup_eq_none_of_not_mem_keys hp.2]

/-- A path is found by lookup exactly when some entry carries it. -/
theorem lookup_isSome_iff (k : Path) (s : FS) :
    (lookup k s).isSome ↔ ∃ v, (k, v) ∈ s := by
  induction s with
  | nil => simp [lookup]
  | cons e t ih =>
    obtain ⟨q, v⟩ := e
    by_cases hq : q = k
    · subst hq; simp [lookup]
    · simp only [lookup, if_neg hq, List.mem_cons, Prod.mk.injEq]
      rw [ih]
      constructor
      · rintro ⟨w, hw⟩; exact ⟨w, Or.inr hw⟩
      · rintro ⟨w, hw | hw⟩
        · exact absurd hw.1.symm hq
        · exact ⟨w, hw⟩

end FS

theorem basename_concat (q : Path) (a : String) : basename (q ++ [a]) = a := by
  simp [basename]

/-- A nonempty path is its dropLast followed by its basename. -/
theorem eq_dropLast_concat {k : Path} (h : k ≠ []) : k = k.dropLast ++ [basename k] := by
  conv_lhs => rw [← List.dropLast_append_getLast h]
  congr 1
  simp [basename, List.getLastD_eq_getLast?, List.getLast?_eq_getLast _ h]

theorem mem_childNames (a : String) (q : Path) (s : FS) :
    a ∈ childNames q s ↔ ∃ v, (q ++ [a], v) ∈ s := by
  induction s with
  | nil => simp [childNames]
  | cons e t ih =>
    obtain ⟨k, v⟩ := e
    show a ∈ (if k ≠ [] ∧ k.dropLast = q then basename k :: childNames q t
          else childNames q t) ↔ _
    by_cases h : k ≠ [] ∧ k.dropLast = q
    · obtain ⟨hne, hdrop⟩ := h
      have hk : k = q ++ [basename k] := by
        conv_lhs => rw [eq_dropLast_concat hne, hdrop]
      rw [if_pos ⟨hne, hdrop⟩]
      simp only [List.mem_cons, Prod.mk.injEq, ih]
      constructor
      · rintro (hh | ⟨w, hw⟩)
        · exact ⟨v, Or.inl ⟨by rw [hh]; exact hk.symm, rfl⟩⟩
        · exact ⟨w, Or.inr hw⟩
      · rintro ⟨w, ⟨hw1, _⟩ | hw⟩
        · left
          have h2 : q ++ [a] = q ++ [basename k] := hw1.trans hk
          exact List.singleton_injective (List.append_cancel_left h2)
        · right; exact ⟨w, hw⟩
    · rw [if_neg h, ih]
      push_neg at h
      have hk : k ≠ q ++ [a] := by
        intro hc
        have hne : k ≠ [] := by simp [hc]
        have hd := h hne
        rw [hc] at hd
        exact hd (by simp)
      simp only [List.mem_cons, Prod.mk.injEq]
      constructor
      · rintro ⟨w, hw⟩; exact ⟨w, Or.inr hw⟩
      · rintro ⟨w, hw | hw⟩
        · exact absurd hw.1.symm hk
        · exact ⟨w, hw⟩

/-- Membership in childNames expressed through lookup. -/
theorem mem_childNames_lookup (a : String) (q : Path) (s : FS) :
    a ∈ childNames q s ↔ (FS.lookup (q ++ [a]) s).isSome := by
  rw [mem_childNames, FS.lookup_isSome_iff]

/-! Basic evaluation lemmas for the path predicates. -/

theorem resolvePath_of_lookup_file {p : Path} {s : FS} {c : String}
    (h : FS.lookup p s = some (.file c)) : resolvePath p s = some p := by
  simp [resolvePath, resolveW, h]

theorem resolvePath_of_lookup_dir {p : Path} {s : FS}
    (h : FS.lookup p s = some .dir) : resolvePath p s = some p := by
  simp [resolvePath, resolveW, h]

theorem resolvePath_of_lookup_none {p : Path} {s : FS}
    (h : FS.lookup p s = none) : resolvePath p s = some p := by
  simp [resolvePath, resolveW, h]

theorem islinkF_of_lookup_file {p : Path} {s : FS} {c : String}
    (h : FS.lookup p s = some (.file c)) : islinkF p s = false := by
  simp [islinkF, h]

theorem islinkF_of_lookup_dir {p : Path} {s : FS}
    (h : FS.lookup p s = some .dir) : islinkF p s = false := by
  simp [islinkF, h]

theorem islinkF_of_lookup_none {p : Path} {s : FS}
    (h : FS.lookup p s = none) : islinkF p s = false := by
  simp [islinkF, h]

theorem islinkF_of_lookup_link {p : Path} {s : FS} {t : Path}
    (h : FS.lookup p s = some (.link t)) : islinkF p s = true := by
  simp [islinkF, h]

theorem islinkF_eq_true_iff {p : Path} {s : FS} :
    islinkF p s = true ↔ ∃ t, FS.lookup p s = some (.link t) := by
  unfold islinkF
  cases h : FS.lookup p s with
  | none => simp
  | some n => cases n <;> simp

theorem existsF_of_lookup_file {p : Path} {s : FS} {c : String}
    (h : FS.lookup p s = some (.file c)) : existsF p s = true := by
  simp [existsF, resolvePath_of_lookup_file h, h]

theorem existsF_of_lookup_dir {p : Path} {s : FS}
    (h : FS.lookup p s = some .dir) : existsF p s = true := by
  simp [existsF, resolvePath_of_lookup_dir h, h]

theorem existsF_of_lookup_none {p : Path} {s : FS}
    (h : FS.lookup p s = none) : existsF p s = false := by
  simp [existsF, resolvePath_of_lookup_none h, h]

theorem isDirF_of_lookup_dir {p : Path} {s : FS}
    (h : FS.lookup p s = some .dir) : isDirF p s = true := by
  simp [isDirF, resolvePath_of_lookup_dir h, h]

theorem isDirF_of_lookup_file {p : Path} {s : FS} {c : String}
    (h : FS.lookup p s = some (.file c)) : isDirF p s = false := by
  simp [isDirF, resolvePath_of_lookup_file h, h]

theorem isDirF_of_lookup_none {p : Path} {s : FS}
    (h : FS.lookup p s = none) : isDirF p s = false := by
  simp [isDirF, resolvePath_of_lookup_none h, h]

/-! Claim theorems. -/

/-- Claim C1: executing a single-mode Symlink action whose destination is a
pre-existing regular file fails with NotALinkError and leaves the filesystem,
in particular the contents of the destination file, untouched; this holds
for both revisions of the module. -/
theorem claim1_symlink_file_destination
    (s : FS) (src p : Path) (c : String)
    (hfile : FS.lookup p s = some (.file c)) :
    Polkadots.SymlinkAction.execute ⟨src, p, false⟩ s = ⟨some .notALink, s, []⟩ ∧
    Legacy.SymlinkAction.execute ⟨src, p, false⟩ s = ⟨some .notALink, s, []⟩ := by
  constructor
  · show (if (false : Bool) = true then _ else _) = _
    rw [if_neg (by simp)]
    show (if (isDirF p s && !islinkF p s) = true then _
          else Polkadots.symlink_replacing src p ⟨none, s, []⟩) = _
    rw [if_neg (by simp [isDirF_of_lookup_file hfile])]
    show (if (none : Option Err).isSome = true then _ else _) = _
    rw [if_neg (by simp)]
    have hrm : Polkadots.rmlink p true s = ⟨some .notALink, s, []⟩ := by
      unfold Polkadots.rmlink
      rw [if_neg (by simp [islinkF_of_lookup_file hfile]),
        if_neg (by simp [existsF_of_lookup_file hfile])]
    simp [hrm]
  · show Legacy.replaceOne src p ⟨none, s, []⟩ = _
    unfold Legacy.replaceOne
    rw [if_neg (by simp)]
    have hrm : Legacy.rmlink p true s = ⟨some .notALink, s, []⟩ := by
      unfold Legacy.rmlink
      rw [if_neg (by simp [islinkF_of_lookup_file hfile]),
        if_neg (by simp [existsF_of_lookup_file hfile])]
    simp [hrm]

/-- Witness for claim C1 at a concrete state. -/
theorem claim1_witness :
    Polkadots.SymlinkAction.execute ⟨["s"], ["p"], false⟩ [(["p"], Node.file "data")] =
      ⟨some .notALink, [(["p"], Node.file "data")], []⟩ ∧
    Legacy.SymlinkAction.execute ⟨["s"], ["p"], false⟩ [(["p"], Node.file "data")] =
      ⟨some .notALink, [(["p"], Node.file "data")], []⟩ :=
  claim1_symlink_file_destination [(["p"], Node.file "data")] ["s"] ["p"] "data" (by decide)

/-- Claim C4, counterexample: both cited revisions deviate from the stated
case analysis.  On a dangling symbolic link the rmlink of the historical
revision (src/polkadots.py) does not delete the link: it raises
FileNotFoundError when ignore_absent is false and silently does nothing when
it is true.  On an absent path with ignore_absent false the rmlink of the
current revision (src/polkadots/polkadots.py) raises KeyError, not the
claimed FileNotFoundError: the raise argument is a str.format call giving a
positional argument to a named replacement field, which fails first. -/
theorem claim4_counterexample :
    FS.lookup ["h", "l"] [(["h"], Node.dir), (["h", "l"], Node.link ["h", "gone"])] =
      some (Node.link ["h", "gone"]) ∧
    FS.lookup ["h", "gone"] [(["h"], Node.dir), (["h", "l"], Node.link ["h", "gone"])] = none ∧
    Legacy.rmlink ["h", "l"] false [(["h"], Node.dir), (["h", "l"], Node.link ["h", "gone"])] =
      ⟨some .fileNotFound, [(["h"], Node.dir), (["h", "l"], Node.link ["h", "gone"])], []⟩ ∧
    Legacy.rmlink ["h", "l"] true [(["h"], Node.dir), (["h", "l"], Node.link ["h", "gone"])] =
      ⟨none, [(["h"], Node.dir), (["h", "l"], Node.link ["h", "gone"])], []⟩ ∧
    Polkadots.rmlink ["gone"] false [] = ⟨some .keyError, [], []⟩ := by
  refine ⟨by decide, by decide, by decide, by decide, by decide⟩

/-- Claim C4 (amended to the current revision, with its format bug): the
rmlink of src/polkadots/polkadots.py deletes the path and succeeds exactly
on symbolic links, dangling ones included; on an absent path it succeeds
silently iff ignore_absent is set and otherwise raises KeyError from the
malformed message-format call, never reaching the FileNotFoundError the
claim names; on a real file or directory it raises NotALinkError and
deletes nothing. -/
theorem claim4_rmlink_cases (s : FS) (p : Path) (ia : Bool) :
    (∀ t, FS.lookup p s = some (.link t) →
      Polkadots.rmlink p ia s = ⟨none, FS.remove p s, []⟩) ∧
    (FS.lookup p s = none →
      Polkadots.rmlink p ia s =
        if ia then ⟨none, s, []⟩ else ⟨some .keyError, s, []⟩) ∧
    (∀ c, FS.lookup p s = some (.file c) →
      Polkadots.rmlink p ia s = ⟨some .notALink, s, []⟩) ∧
    (FS.lookup p s = some .dir →
      Polkadots.rmlink p ia s = ⟨some .notALink, s, []⟩) := by
  refine ⟨fun t ht => ?_, fun hn => ?_, fun c hc => ?_, fun hd => ?_⟩
  · unfold Polkadots.rmlink
    rw [if_pos (islinkF_of_lookup_link ht)]
  · unfold Polkadots.rmlink
    rw [if_neg (by simp [islinkF_of_lookup_none hn]),
      if_pos (by simp [existsF_of_lookup_none hn])]
  · unfold Polkadots.rmlink
    rw [if_neg (by simp [islinkF_of_lookup_file hc]),
      if_neg (by simp [existsF_of_lookup_file hc])]
  · unfold Polkadots.rmlink
    rw [if_neg (by simp [islinkF_of_lookup_dir hd]),
      if_neg (by simp [existsF_of_lookup_dir hd])]

/-- Witness for claim C4: the current rmlink deletes a dangling link. -/
theorem claim4_witness :
    Polkadots.rmlink ["h", "l"] false [(["h"], Node.dir), (["h", "l"], Node.link ["h", "gone"])] =
      ⟨none, [(["h"], Node.dir)], []⟩ :=
  (claim4_rmlink_cases [(["h"], Node.dir), (["h", "l"], Node.link ["h", "gone"])]
      ["h", "l"] false).1 ["h", "gone"] (by decide)

/-- Claim C5: on a descriptor whose type names no module attribute, the
get_actions of the current revision fails with AttributeError carrying the
unknown name (not with the MissingActionError the specification promises,
which the source defines but never raises), and returns no partial list. -/
theorem claim5_unknown_type :
    Polkadots.get_actions [[("type", .str "DoesNotExist")]] ["repo"] =
      .error (.attributeError "DoesNotExist") := rfl

/-- Claim C6: with the destination an existing file and overwrite false, the
copy is skipped with a warning and the destination keeps its contents; with
overwrite true the destination is rewritten with the source contents; a
basename match inside a destination directory is likewise skipped. -/
theorem claim6_copy_overwrite_policy
    (s : FS) (src dst : Path) (cA cB : String)
    (hdst : FS.lookup dst s = some (.file cA))
    (hsrc : FS.lookup src s = some (.file cB))
    (hne : src ≠ dst) :
    Polkadots.CopyAction.execute ⟨src, dst, false, false⟩ s = ⟨none, s, [src]⟩ ∧
    Polkadots.CopyAction.execute ⟨src, dst, false, true⟩ s =
      ⟨none, FS.set dst (.file cB) s, []⟩ ∧
    (∀ ddir : Path, FS.lookup ddir s = some .dir →
      FS.lookup (ddir ++ [basename src]) s = some (.file cA) →
      Polkadots.CopyAction.execute ⟨src, ddir, false, false⟩ s = ⟨none, s, [src]⟩) := by
  refine ⟨?_, ?_, fun ddir hdir hbase => ?_⟩
  · show List.foldl (Polkadots.copyStep _) ⟨none, s, []⟩ [src] = _
    show Polkadots.copyStep _ ⟨none, s, []⟩ src = _
    unfold Polkadots.copyStep
    rw [if_neg (by simp)]
    rw [if_neg (by simp [isDirF_of_lookup_file hdst])]
    rw [if_pos (by simp [existsF_of_lookup_file hdst])]
    simp
  · show List.foldl (Polkadots.copyStep _) ⟨none, s, []⟩ [src] = _
    show Polkadots.copyStep _ ⟨none, s, []⟩ src = _
    unfold Polkadots.copyStep
    rw [if_neg (by simp)]
    rw [if_neg (by simp [isDirF_of_lookup_file hdst])]
    rw [if_neg (by simp)]
    have hsame : samefileF src dst s = false := by
      simp [samefileF, resolvePath_of_lookup_file hsrc, resolvePath_of_lookup_file hdst, hne]
    have hread : readF src s = .ok cB := by
      simp [readF, resolvePath_of_lookup_file hsrc, hsrc]
    have hopen : openWb dst s = .ok dst := by
      simp [openWb, resolvePath_of_lookup_file hdst, hdst]
    have hcopy : Polkadots.shutil_copy src dst s = .ok (FS.set dst (.file cB) s) := by
      unfold Polkadots.shutil_copy
      simp [isDirF_of_lookup_file hdst, hsame, hread, hopen]
    simp [hcopy]
  · show List.foldl (Polkadots.copyStep _) ⟨none, s, []⟩ [src] = _
    show Polkadots.copyStep _ ⟨none, s, []⟩ src = _
    unfold Polkadots.copyStep
    rw [if_neg (by simp)]
    rw [if_pos (isDirF_of_lookup_dir hdir)]
    rw [if_pos (by simp [existsF_of_lookup_file hbase])]
    simp

/-- Witness for claim C6 at a concrete state. -/
theorem claim6_witness :
    Polkadots.CopyAction.execute ⟨["s"], ["d"], false, false⟩
        [(["d"], Node.file "A"), (["s"], Node.file "B")] =
      ⟨none, [(["d"], Node.file "A"), (["s"], Node.file "B")], [["s"]]⟩ ∧
    Polkadots.CopyAction.execute ⟨["s"], ["d"], false, true⟩
        [(["d"], Node.file "A"), (["s"], Node.file "B")] =
      ⟨none, FS.set ["d"] (.file "B") [(["d"], Node.file "A"), (["s"], Node.file "B")], []⟩ ∧
    (∀ ddir : Path,
      FS.lookup ddir [(["d"], Node.file "A"), (["s"], Node.file "B")] = some .dir →
      FS.lookup (ddir ++ [basename ["s"]]) [(["d"], Node.file "A"), (["s"], Node.file "B")] =
        some (.file "A") →
      Polkadots.CopyAction.execute ⟨["s"], ddir, false, false⟩
          [(["d"], Node.file "A"), (["s"], Node.file "B")] =
        ⟨none, [(["d"], Node.file "A"), (["s"], Node.file "B")], [["s"]]⟩) :=
  claim6_copy_overwrite_policy [(["d"], Node.file "A"), (["s"], Node.file "B")]
    ["s"] ["d"] "A" "B" (by decide) (by decide) (by decide)

theorem getField_of_all_ne (k : String) (extras : Polkadots.Descriptor)
    (h : ∀ kv ∈ extras, kv.1 ≠ k) : Polkadots.getField k extras = none := by
  induction extras with
  | nil => rfl
  | cons e t ih =>
    obtain ⟨k', v⟩ := e
    have h1 : k' ≠ k := h (k', v) (List.mem_cons_self _ _)
    show (if k' = k then some v else Polkadots.getField k t) = none
    rw [if_neg h1]
    exact ih (fun kv hkv => h kv (List.mem_cons_of_mem _ hkv))

theorem getField_append_of_all_ne (k : String) (fields extras : Polkadots.Descriptor)
    (h : ∀ kv ∈ extras, kv.1 ≠ k) :
    Polkadots.getField k (fields ++ extras) = Polkadots.getField k fields := by
  induction fields with
  | nil => simpa using getField_of_all_ne k extras h
  | cons e t ih =>
    obtain ⟨k', v⟩ := e
    show (if k' = k then some v else Polkadots.getField k (t ++ extras)) =
      (if k' = k then some v else Polkadots.getField k t)
    by_cases hk : k' = k <;> simp [hk, ih]

/-- Claim C10, counterexample: an extra descriptor field named dotfile_repo
is not silently ignored by the Symlink, Copy or Concatenate constructor:
each call klass(dotfile_repo=dotfile_repo, **action) then binds the keyword
dotfile_repo twice and raises TypeError. -/
theorem claim10_counterexample :
    Polkadots.mkSymlinkAction ["r"]
        [("source", .path ["a"]), ("destination", .path ["b"]),
         ("dotfile_repo", .path ["x"])] = .error .typeError ∧
    Polkadots.mkCopyAction ["r"]
        [("source", .path ["a"]), ("destination", .path ["b"]),
         ("dotfile_repo", .path ["x"])] = .error .typeError ∧
    Polkadots.mkCatAction ["r"]
        [("destination", .path ["b"]), ("dotfile_repo", .path ["x"])] =
      .error .typeError ∧
    Polkadots.mkSymlinkAction ["r"]
        [("source", .path ["a"]), ("destination", .path ["b"])] =
      .ok { source := ["r", "a"], destination := ["r", "b"], dir_mode := false } := by
  refine ⟨rfl, rfl, rfl, rfl⟩

/-- Claim C10 (amended): appending fields unknown to the variant to a
descriptor does not change what the Symlink, Copy and Concatenate
constructors build, provided no extra field is named dotfile_repo or self:
such a field collides with an argument already bound by the constructor
call and raises TypeError in all four variants, while the MakeDirectory
constructor rejects any descriptor containing a field outside its declared
parameters with a TypeError. -/
theorem claim10_constructor_validation
    (repo : Path) (fields extras : Polkadots.Descriptor)
    (hextras : ∀ kv ∈ extras,
      kv.1 ≠ "source" ∧ kv.1 ≠ "destination" ∧ kv.1 ≠ "dir_mode" ∧ kv.1 ≠ "overwrite" ∧
      kv.1 ≠ "dotfile_repo" ∧ kv.1 ≠ "self") :
    Polkadots.mkSymlinkAction repo (fields ++ extras) = Polkadots.mkSymlinkAction repo fields ∧
    Polkadots.mkCopyAction repo (fields ++ extras) = Polkadots.mkCopyAction repo fields ∧
    Polkadots.mkCatAction repo (fields ++ extras) = Polkadots.mkCatAction repo fields ∧
    (∀ (fields2 : Polkadots.Descriptor) (kv : String × Polkadots.FieldVal),
      kv ∈ fields2 → ¬ Polkadots.mkdirKnownFields.contains kv.1 = true →
      Polkadots.mkMkdirAction repo fields2 = .error .typeError) ∧
    (∀ (fields2 : Polkadots.Descriptor) (kv : String × Polkadots.FieldVal),
      kv ∈ fields2 → (kv.1 = "dotfile_repo" ∨ kv.1 = "self") →
      Polkadots.mkSymlinkAction repo fields2 = .error .typeError ∧
      Polkadots.mkCopyAction repo fields2 = .error .typeError ∧
      Polkadots.mkCatAction repo fields2 = .error .typeError ∧
      Polkadots.mkMkdirAction repo fields2 = .error .typeError) := by
  have hsrc := getField_append_of_all_ne "source" fields extras
    (fun kv hkv => (hextras kv hkv).1)
  have hdst := getField_append_of_all_ne "destination" fields extras
    (fun kv hkv => (hextras kv hkv).2.1)
  have hdm := getField_append_of_all_ne "dir_mode" fields extras
    (fun kv hkv => (hextras kv hkv).2.2.1)
  have how := getField_append_of_all_ne "overwrite" fields extras
    (fun kv hkv => (hextras kv hkv).2.2.2.1)
  have hdup : Polkadots.duplicateKeyword (fields ++ extras) =
      Polkadots.duplicateKeyword fields := by
    unfold Polkadots.duplicateKeyword
    rw [List.any_append]
    have hx : extras.any (fun kv => kv.1 == "dotfile_repo" || kv.1 == "self") = false := by
      rw [List.any_eq_false]
      intro kv hkv
      simp only [Bool.or_eq_true, beq_iff_eq, not_or]
      exact ⟨(hextras kv hkv).2.2.2.2.1, (hextras kv hkv).2.2.2.2.2⟩
    rw [hx, Bool.or_false]
  refine ⟨?_, ?_, ?_, ?_, ?_⟩
  · unfold Polkadots.mkSymlinkAction
    rw [hdup, hsrc, hdst, hdm]
  · unfold Polkadots.mkCopyAction
    rw [hdup, hsrc, hdst, hdm, how]
  · unfold Polkadots.mkCatAction
    rw [hdup, hdst]
  · intro fields2 kv hkv hun
    unfold Polkadots.mkMkdirAction
    rw [if_pos (List.any_eq_true.mpr ⟨kv, hkv, by simpa using hun⟩)]
  · intro fields2 kv hkv hname
    have hdup2 : Polkadots.duplicateKeyword fields2 = true := by
      apply List.any_eq_true.mpr
      refine ⟨kv, hkv, ?_⟩
      rcases hname with h | h <;> simp [h]
    have hmk : ¬ Polkadots.mkdirKnownFields.contains kv.1 = true := by
      rcases hname with h | h <;> simp [Polkadots.mkdirKnownFields, h]
    refine ⟨?_, ?_, ?_, ?_⟩
    · unfold Polkadots.mkSymlinkAction
      rw [if_pos hdup2]
    · unfold Polkadots.mkCopyAction
      rw [if_pos hdup2]
    · unfold Polkadots.mkCatAction
      rw [if_pos hdup2]
    · unfold Polkadots.mkMkdirAction
      rw [if_pos (List.any_eq_true.mpr ⟨kv, hkv, by simpa using hmk⟩)]

/-- Witness for claim C10 at concrete descriptors: the extra type field is
ignored by the Symlink constructor, rejected by the MakeDirectory
constructor, and an extra dotfile_repo field is rejected by the Copy
constructor. -/
theorem claim10_witness :
    Polkadots.mkSymlinkAction ["r"]
        ([("source", .path ["a"]), ("destination", .path ["b"])] ++
          [("type", .str "SymlinkAction"), ("junk", .str "z")]) =
      Polkadots.mkSymlinkAction ["r"] [("source", .path ["a"]), ("destination", .path ["b"])] ∧
    Polkadots.mkMkdirAction ["r"] [("type", .str "MkdirAction"), ("directory", .path ["x"])] =
      .error .typeError ∧
    Polkadots.mkCopyAction ["r"]
        [("dotfile_repo", .path ["x"]), ("source", .path ["a"])] = .error .typeError :=
  ⟨(claim10_constructor_validation ["r"]
      [("source", .path ["a"]), ("destination", .path ["b"])]
      [("type", .str "SymlinkAction"), ("junk", .str "z")] (by decide)).1,
   (claim10_constructor_validation ["r"] [] [] (by decide)).2.2.2.1
      [("type", .str "MkdirAction"), ("directory", .path ["x"])]
      ("type", .str "MkdirAction") (by decide) (by decide),
   ((claim10_constructor_validation ["r"] [] [] (by decide)).2.2.2.2
      [("dotfile_repo", .path ["x"]), ("source", .path ["a"])]
      ("dotfile_repo", .path ["x"]) (by decide) (by decide)).2.1⟩

/-- Claim C7, counterexample: on the very scenario of the claim the
directory-mode SymlinkAction of the historical revision (src/polkadots.py,
cited by the claim) calls the link guard on the destination directory itself,
fails with NotALinkError, and creates no link at all. -/
theorem claim7_counterexample :
    Legacy.SymlinkAction.execute ⟨["s"], ["d"], true⟩ claim7start =
      ⟨some .notALink, claim7start, []⟩ ∧
    FS.lookup ["d", "a"] claim7start = none := by
  exact ⟨by decide, by decide⟩

/-- Claim C7 (amended to the current revision): directory-mode execution on
the scenario creates the three links destination/x -> source/x, and the
final filesystem state is the same for every processing order of the
entries. -/
theorem claim7_dir_mode_links :
    Polkadots.SymlinkAction.execute ⟨["s"], ["d"], true⟩ claim7start =
      ⟨none, claim7final, []⟩ ∧
    FS.lookup ["d", "a"] claim7final = some (.link ["s", "a"]) ∧
    FS.lookup ["d", "b"] claim7final = some (.link ["s", "b"]) ∧
    FS.lookup ["d", "c"] claim7final = some (.link ["s", "c"]) ∧
    ∀ l ∈ [["a", "b", "c"], ["a", "c", "b"], ["b", "a", "c"],
           ["b", "c", "a"], ["c", "a", "b"], ["c", "b", "a"]],
      (List.foldl
          (fun r f => Polkadots.symlink_replacing (["s"] ++ [f]) (["d"] ++ [f]) r)
          ⟨none, claim7start, []⟩ l).err = none ∧
      FS.equiv
        (List.foldl
          (fun r f => Polkadots.symlink_replacing (["s"] ++ [f]) (["d"] ++ [f]) r)
          ⟨none, claim7start, []⟩ l).fs
        claim7final := by
  refine ⟨by decide, by decide, by decide, by decide, ?_⟩
  intro l hl
  simp only [List.mem_cons, List.not_mem_nil, or_false] at hl
  rcases hl with h | h | h | h | h | h <;> subst h <;>
    exact ⟨by decide, FS.equiv_of_agree (by decide)⟩

/-- Witness for claim C7: the permutation clause applied to one concrete
processing order. -/
theorem claim7_witness :
    (List.foldl
        (fun r f => Polkadots.symlink_replacing (["s"] ++ [f]) (["d"] ++ [f]) r)
        ⟨none, claim7start, []⟩ ["c", "a", "b"]).err = none ∧
    FS.equiv
      (List.foldl
        (fun r f => Polkadots.symlink_replacing (["s"] ++ [f]) (["d"] ++ [f]) r)
        ⟨none, claim7start, []⟩ ["c", "a", "b"]).fs
      claim7final :=
  claim7_dir_mode_links.2.2.2.2 ["c", "a", "b"] (by decide)

/-! Stability lemmas used for the Concatenate and idempotence analyses. -/

theorem resolveW_set_nonlink {r : Path} {v : Node} (hv : ∀ t, v ≠ .link t)
    {s : FS} (hr : ∀ t, FS.lookup r s ≠ some (.link t)) (fuel : Nat) (p : Path) :
    resolveW (FS.set r v s) fuel p = resolveW s fuel p := by
  induction fuel generalizing p with
  | zero =>
    unfold resolveW
    rw [FS.lookup_set r p v s]
    by_cases hp : p = r
    · subst hp
      cases v with
      | file c => cases hl : FS.lookup p s with
        | none => simp
        | some n => cases n with
          | file c' => simp
          | dir => simp
          | link t => exact absurd hl (hr t)
      | dir => cases hl : FS.lookup p s with
        | none => simp
        | some n => cases n with
          | file c' => simp
          | dir => simp
          | link t => exact absurd hl (hr t)
      | link t => exact absurd rfl (hv t)
    · rw [if_neg hp]
  | succ n ih =>
    unfold resolveW
    rw [FS.lookup_set r p v s]
    by_cases hp : p = r
    · subst hp
      cases v with
      | file c => cases hl : FS.lookup p s with
        | none => simp
        | some nn => cases nn with
          | file c' => simp
          | dir => simp
          | link t => exact absurd hl (hr t)
      | dir => cases hl : FS.lookup p s with
        | none => simp
        | some nn => cases nn with
          | file c' => simp
          | dir => simp
          | link t => exact absurd hl (hr t)
      | link t => exact absurd rfl (hv t)
    · rw [if_neg hp]
      cases hl : FS.lookup p s with
      | none => rfl
      | some nn => cases nn with
        | file c' => rfl
        | dir => rfl
        | link t => exact ih t

theorem resolvePath_set_nonlink {r : Path} {v : Node} (hv : ∀ t, v ≠ .link t)
    {s : FS} (hr : ∀ t, FS.lookup r s ≠ some (.link t)) (p : Path) :
    resolvePath p (FS.set r v s) = resolvePath p s :=
  resolveW_set_nonlink hv hr maxLinks p

theorem openWb_ok_facts {p q : Path} {s : FS} (h : openWb p s = .ok q) :
    resolvePath p s = some q ∧
    (FS.lookup q s = none ∨ ∃ c, FS.lookup q s = some (.file c)) := by
  unfold openWb at h
  split at h
  · exact absurd h (by simp)
  · rename_i q' hr
    split at h
    · exact absurd h (by simp)
    · rename_i c hl
      obtain rfl : q' = q := by simpa using h
      exact ⟨hr, Or.inr ⟨c, hl⟩⟩
    · exact absurd h (by simp)
    · rename_i hl
      split at h
      · obtain rfl : q' = q := by simpa using h
        exact ⟨hr, Or.inl hl⟩
      · exact absurd h (by simp)

theorem lookup_nonlink_of_openWb {p q : Path} {s : FS} (h : openWb p s = .ok q) :
    ∀ t, FS.lookup q s ≠ some (.link t) := by
  rcases (openWb_ok_facts h).2 with hn | ⟨c, hc⟩
  · intro t; rw [hn]; simp
  · intro t; rw [hc]; simp

/-- Reading through paths that do not resolve to the rewritten file is
unaffected by the write. -/
theorem readF_set_file_stable {x r : Path} {c : String} {s : FS}
    (hr : ∀ t, FS.lookup r s ≠ some (.link t)) (hx : resolvePath x s ≠ some r) :
    readF x (FS.set r (.file c) s) = readF x s := by
  unfold readF
  rw [resolvePath_set_nonlink (by intro t; simp) hr x]
  cases hq : resolvePath x s with
  | none => rfl
  | some q =>
    have hqr : q ≠ r := by
      intro hcontra
      exact hx (by rw [hq, hcontra])
    dsimp only
    rw [FS.lookup_set_ne r q (.file c) s hqr]

theorem catStep_fold_err (q : Path) (srcs : List Path) (r : Res) (buf : String)
    (h : r.err.isSome) :
    srcs.foldl (Polkadots.catStep q) (r, buf) = (r, buf) := by
  induction srcs with
  | nil => rfl
  | cons src rest ih =>
    show List.foldl _ (Polkadots.catStep q (r, buf) src) rest = _
    unfold Polkadots.catStep
    rw [if_pos h]
    exact ih

theorem catScan_err (srcs : List Path) (s : FS) (e : Err) (buf : String) :
    catScan srcs s (some e, buf) = (some e, buf) := by
  induction srcs with
  | nil => rfl
  | cons src rest ih => exact ih

/-- The Concatenate fold against the write target q behaves like the pure
scan of the sources against the starting state, with the scanned prefix
written at q, provided no source resolves to q itself. -/
theorem catStep_fold_char (q : Path) (s : FS)
    (hq : ∀ t, FS.lookup q s ≠ some (.link t)) :
    ∀ (srcs : List Path), (∀ src ∈ srcs, resolvePath src s ≠ some q) →
    ∀ (buf : String),
    srcs.foldl (Polkadots.catStep q) (⟨none, FS.set q (.file buf) s, []⟩, buf) =
      (⟨(catScan srcs s (none, buf)).1,
        FS.set q (.file (catScan srcs s (none, buf)).2) s, []⟩,
       (catScan srcs s (none, buf)).2) := by
  intro srcs
  induction srcs with
  | nil => intro _ _; rfl
  | cons src rest ih =>
    intro halias buf
    have hsrc : resolvePath src s ≠ some q := halias src (List.mem_cons_self _ _)
    have hrest : ∀ x ∈ rest, resolvePath x s ≠ some q :=
      fun x hx => halias x (List.mem_cons_of_mem _ hx)
    have hread : readF src (FS.set q (.file buf) s) = readF src s :=
      readF_set_file_stable hq hsrc
    have hstep : Polkadots.catStep q (⟨none, FS.set q (.file buf) s, []⟩, buf) src =
        (match readF src s with
          | .error e => ((⟨some e, FS.set q (.file buf) s, []⟩ : Res), buf)
          | .ok c => ((⟨none, FS.set q (.file (buf ++ c)) s, []⟩ : Res), buf ++ c)) := by
      unfold Polkadots.catStep
      rw [if_neg (by simp)]
      simp only [hread]
      cases readF src s with
      | error e => rfl
      | ok c =>
        dsimp only
        rw [FS.set_set_self]
    have hscan : catScan (src :: rest) s (none, buf) =
        catScan rest s
          (match readF src s with
            | .error e => (some e, buf)
            | .ok c => (none, buf ++ c)) := by
      unfold catScan
      rw [List.foldl_cons]
    rw [List.foldl_cons, hstep, hscan]
    cases hr : readF src s with
    | error e =>
      dsimp only
      rw [catStep_fold_err q rest _ buf (by simp), catScan_err rest s e buf]
    | ok c =>
      dsimp only
      exact ih hrest (buf ++ c)

/-- Claim C3, counterexample: with sources foo, bar, baz and the second
source absent, Concatenate truncates the destination first and fails midway,
leaving the destination containing exactly foo: neither its previous
contents nor the full concatenation. -/
theorem claim3_counterexample :
    Polkadots.CatAction.execute ⟨[["s1"], ["s2"], ["s3"]], ["d"]⟩
        [(["d"], Node.file "old"), (["s1"], Node.file "foo"), (["s3"], Node.file "baz")] =
      ⟨some .fileNotFound,
        [(["d"], Node.file "foo"), (["s1"], Node.file "foo"), (["s3"], Node.file "baz")], []⟩ ∧
    FS.lookup ["d"]
        (Polkadots.CatAction.execute ⟨[["s1"], ["s2"], ["s3"]], ["d"]⟩
          [(["d"], Node.file "old"), (["s1"], Node.file "foo"), (["s3"], Node.file "baz")]).fs =
      some (.file "foo") := ⟨by decide, by decide⟩

/-- Claim C3 (amended): Concatenate first truncates the destination, then
writes the sources in order; if reading a source fails, execution stops with
the concatenation of the preceding sources already visible at the
destination (partial content is not prevented), and if every read succeeds
the destination holds the full concatenation. -/
theorem claim3_cat_truncate_then_write
    (a : Polkadots.CatAction) (s : FS) (q : Path)
    (hopen : openWb a.destination s = .ok q)
    (halias : ∀ src ∈ a.sources, resolvePath src s ≠ some q) :
    Polkadots.CatAction.execute a s =
      ⟨(catScan a.sources s (none, "")).1,
        FS.set q (.file (catScan a.sources s (none, "")).2) s, []⟩ := by
  unfold Polkadots.CatAction.execute
  rw [hopen]
  dsimp only
  rw [catStep_fold_char q s (lookup_nonlink_of_openWb hopen) a.sources halias ""]

/-- Witness for claim C3 at the concrete scenario of the claim. -/
theorem claim3_witness :
    Polkadots.CatAction.execute ⟨[["s1"], ["s2"], ["s3"]], ["d"]⟩
        [(["d"], Node.file "old"), (["s1"], Node.file "foo"), (["s3"], Node.file "baz")] =
      ⟨(catScan [["s1"], ["s2"], ["s3"]]
          [(["d"], Node.file "old"), (["s1"], Node.file "foo"), (["s3"], Node.file "baz")]
          (none, "")).1,
        FS.set ["d"]
          (.file (catScan [["s1"], ["s2"], ["s3"]]
            [(["d"], Node.file "old"), (["s1"], Node.file "foo"), (["s3"], Node.file "baz")]
            (none, "")).2)
          [(["d"], Node.file "old"), (["s1"], Node.file "foo"), (["s3"], Node.file "baz")], []⟩ :=
  claim3_cat_truncate_then_write ⟨[["s1"], ["s2"], ["s3"]], ["d"]⟩
    [(["d"], Node.file "old"), (["s1"], Node.file "foo"), (["s3"], Node.file "baz")]
    ["d"] rfl (by decide)

/-! Machinery for the symlink folds (directory mode and glob mode). -/

theorem symlink_replacing_err {src dest : Path} {r : Res} (h : r.err.isSome) :
    Polkadots.symlink_replacing src dest r = r := by
  unfold Polkadots.symlink_replacing
  rw [if_pos h]

theorem linkFold_err_stable {l : List (Path × Path)} {u : Res} (h : u.err.isSome) :
    linkFold l u = u := by
  induction l with
  | nil => rfl
  | cons pr rest ih =>
    show linkFold rest (Polkadots.symlink_replacing pr.1 pr.2 u) = u
    rw [symlink_replacing_err h]
    exact ih

/-- A non-link, non-absent entry at the guard target makes the guard fail
with NotALinkError. -/
theorem rmlink_notALink {dest : Path} {s : FS}
    (h : (∃ c, FS.lookup dest s = some (.file c)) ∨ FS.lookup dest s = some .dir)
    (ia : Bool) :
    Polkadots.rmlink dest ia s = ⟨some .notALink, s, []⟩ := by
  rcases h with ⟨c, hc⟩ | hd
  · unfold Polkadots.rmlink
    rw [if_neg (by simp [islinkF_of_lookup_file hc]),
      if_neg (by simp [existsF_of_lookup_file hc])]
  · unfold Polkadots.rmlink
    rw [if_neg (by simp [islinkF_of_lookup_dir hd]),
      if_neg (by simp [existsF_of_lookup_dir hd])]

/-- Shape of a successful guard-then-link step: the destination slot, which
was absent or a link, now carries the new link, all other paths are
untouched, and the parent check held. -/
theorem symlink_replacing_ok_shape {src dest : Path} {u : Res}
    (hu : u.err = none)
    (hok : (Polkadots.symlink_replacing src dest u).err = none) :
    Polkadots.symlink_replacing src dest u =
      { err := none, fs := FS.set dest (.link src) (FS.remove dest u.fs), warns := u.warns } ∧
    (FS.lookup dest u.fs = none ∨ ∃ t, FS.lookup dest u.fs = some (.link t)) ∧
    parentOkF dest (FS.remove dest u.fs) = true := by
  unfold Polkadots.symlink_replacing at hok ⊢
  rw [if_neg (by simp [hu])] at hok ⊢
  cases hl : FS.lookup dest u.fs with
  | some n =>
    cases n with
    | link t =>
      have hrm : Polkadots.rmlink dest true u.fs = ⟨none, FS.remove dest u.fs, []⟩ := by
        unfold Polkadots.rmlink
        rw [if_pos (islinkF_of_lookup_link hl)]
      rw [hrm] at hok ⊢
      dsimp only at hok ⊢
      unfold symlinkOp at hok ⊢
      rw [if_neg (by simp)] at hok ⊢
      by_cases hp : parentOkF dest (FS.remove dest u.fs) = true
      · rw [if_pos hp] at hok ⊢
        dsimp only at hok ⊢
        refine ⟨?_, Or.inr ⟨t, rfl⟩, hp⟩
        cases u
        simp_all
      · rw [if_neg hp] at hok
        simp at hok
    | file c =>
      rw [rmlink_notALink (Or.inl ⟨c, hl⟩) true] at hok
      dsimp only at hok
      simp at hok
    | dir =>
      rw [rmlink_notALink (Or.inr hl) true] at hok
      dsimp only at hok
      simp at hok
  | none =>
    have hrm : Polkadots.rmlink dest true u.fs = ⟨none, u.fs, []⟩ := by
      unfold Polkadots.rmlink
      rw [if_neg (by simp [islinkF_of_lookup_none hl]),
        if_pos (by simp [existsF_of_lookup_none hl]), if_pos rfl]
    rw [hrm] at hok ⊢
    dsimp only at hok ⊢
    unfold symlinkOp at hok ⊢
    rw [if_neg (by simp [hl])] at hok ⊢
    rw [FS.remove_of_lookup_none dest u.fs hl]
    by_cases hp : parentOkF dest u.fs = true
    · rw [if_pos hp] at hok ⊢
      dsimp only at hok ⊢
      refine ⟨?_, Or.inl rfl, hp⟩
      cases u
      simp_all
    · rw [if_neg hp] at hok
      simp at hok

/-- Pointwise effect of a successful guard-then-link step away from the
destination slot. -/
theorem symlink_replacing_pres {src dest : Path} {u : Res}
    (hu : u.err = none)
    (hok : (Polkadots.symlink_replacing src dest u).err = none)
    (k : Path) (hk : k ≠ dest) :
    FS.lookup k (Polkadots.symlink_replacing src dest u).fs = FS.lookup k u.fs := by
  rw [(symlink_replacing_ok_shape hu hok).1]
  dsimp only
  rw [FS.lookup_set_ne dest k _ _ hk, FS.lookup_remove_ne dest k _ hk]

/-- After a successful fold, every processed slot carries the link of (one
of) its sources, every untouched path is unchanged, and no warnings were
added; slot injectivity makes the recorded source unique. -/
theorem linkFold_ok_facts :
    ∀ (l : List (Path × Path)) (u : Res),
    (∀ pr ∈ l, ∀ pr' ∈ l, pr.2 = pr'.2 → pr.1 = pr'.1) →
    (linkFold l u).err = none →
    u.err = none ∧
    (∀ pr ∈ l, FS.lookup pr.2 (linkFold l u).fs = some (.link pr.1)) ∧
    (∀ k, (∀ pr ∈ l, k ≠ pr.2) → FS.lookup k (linkFold l u).fs = FS.lookup k u.fs) ∧
    (linkFold l u).warns = u.warns := by
  intro l
  induction l with
  | nil => exact fun u _ h => ⟨h, by simp, fun k _ => rfl, rfl⟩
  | cons pr rest ih =>
    intro u hinj hok
    have hfold : linkFold (pr :: rest) u =
        linkFold rest (Polkadots.symlink_replacing pr.1 pr.2 u) := rfl
    rw [hfold] at hok ⊢
    have hu : u.err = none := by
      by_contra hcontra
      have h1 : u.err.isSome := Option.ne_none_iff_isSome.mp hcontra
      rw [symlink_replacing_err h1, linkFold_err_stable h1] at hok
      exact hcontra (by simp [hok])
    have hstep : (Polkadots.symlink_replacing pr.1 pr.2 u).err = none := by
      by_contra hcontra
      have h1 : (Polkadots.symlink_replacing pr.1 pr.2 u).err.isSome :=
        Option.ne_none_iff_isSome.mp hcontra
      rw [linkFold_err_stable h1] at hok
      exact hcontra (by simp [hok])
    have hinj' : ∀ x ∈ rest, ∀ x' ∈ rest, x.2 = x'.2 → x.1 = x'.1 :=
      fun x hx x' hx' => hinj x (List.mem_cons_of_mem _ hx) x' (List.mem_cons_of_mem _ hx')
    obtain ⟨hu', hslots, hpres, hwarns⟩ := ih (Polkadots.symlink_replacing pr.1 pr.2 u) hinj' hok
    obtain ⟨hshape, _, _⟩ := symlink_replacing_ok_shape hu hstep
    refine ⟨hu, ?_, ?_, ?_⟩
    · intro x hx
      rcases List.mem_cons.mp hx with hhead | htail
      · subst hhead
        by_cases hc : ∃ x' ∈ rest, x'.2 = x.2
        · obtain ⟨x', hx', hx2⟩ := hc
          have h1 : x'.1 = x.1 :=
            hinj x' (List.mem_cons_of_mem _ hx') x hx hx2
          have h2 := hslots x' hx'
          rw [hx2, h1] at h2
          exact h2
        · push_neg at hc
          rw [hpres x.2 (fun x' hx' => fun hcontra => hc x' hx' hcontra.symm)]
          rw [hshape]
          dsimp only
          exact FS.lookup_set_self x.2 (.link x.1) _
      · exact hslots x htail
    · intro k hk
      rw [hpres k (fun x hx => hk x (List.mem_cons_of_mem _ hx))]
      exact symlink_replacing_pres hu hstep k (hk pr (List.mem_cons_self _ _))
    · rw [hwarns, hshape]

/-- A slot occupied by a real file or directory at the start of the fold
makes the fold fail. -/
theorem linkFold_bad :
    ∀ (l : List (Path × Path)) (u : Res), u.err = none →
    ∀ pr ∈ l,
    ((∃ c, FS.lookup pr.2 u.fs = some (.file c)) ∨ FS.lookup pr.2 u.fs = some .dir) →
    (linkFold l u).err.isSome := by
  intro l
  induction l with
  | nil => intro u _ pr hpr; cases hpr
  | cons a rest ih =>
    intro u hu pr hpr hbad
    have hfold : linkFold (a :: rest) u =
        linkFold rest (Polkadots.symlink_replacing a.1 a.2 u) := rfl
    rw [hfold]
    by_cases hslot : a.2 = pr.2
    · have hstep : (Polkadots.symlink_replacing a.1 a.2 u).err.isSome := by
        unfold Polkadots.symlink_replacing
        rw [if_neg (by simp [hu])]
        rw [hslot, rmlink_notALink hbad true]
        simp
      rw [linkFold_err_stable hstep]
      exact hstep
    · by_cases hstep : (Polkadots.symlink_replacing a.1 a.2 u).err = none
      · have hmem : pr ∈ rest := by
          rcases List.mem_cons.mp hpr with hh | hh
          · exact absurd (by rw [hh] : a.2 = pr.2) hslot
          · exact hh
        refine ih (Polkadots.symlink_replacing a.1 a.2 u) hstep pr hmem ?_
        rw [symlink_replacing_pres hu hstep pr.2 (fun hc => hslot hc.symm)]
        exact hbad
      · have h1 : (Polkadots.symlink_replacing a.1 a.2 u).err.isSome :=
          Option.ne_none_iff_isSome.mp hstep
        rw [linkFold_err_stable h1]
        exact h1

/-- When every slot hangs off the same parent directory and is absent or a
link, the fold succeeds. -/
theorem linkFold_clear_ok (DST : Path) :
    ∀ (l : List (Path × Path)) (u : Res), u.err = none →
    (∀ pr ∈ l, FS.lookup pr.2 u.fs = none ∨ ∃ t, FS.lookup pr.2 u.fs = some (.link t)) →
    (∀ pr ∈ l, pr.2.dropLast = DST ∧ pr.2 ≠ []) →
    (DST = [] ∨ FS.lookup DST u.fs = some .dir) →
    (linkFold l u).err = none := by
  intro l
  induction l with
  | nil => intro u hu _ _ _; exact hu
  | cons pr rest ih =>
    intro u hu hslots hshape hdst
    obtain ⟨hdrop, hne⟩ := hshape pr (List.mem_cons_self _ _)
    have hDstNe : DST ≠ pr.2 := by
      intro hcontra
      have : pr.2.dropLast = pr.2 := by rw [← hcontra] at hdrop ⊢; exact hdrop
      have hlen := congrArg List.length this
      rw [List.length_dropLast] at hlen
      have : 0 < pr.2.length := List.length_pos.mpr hne
      omega
    have hparent : parentOkF pr.2 (FS.remove pr.2 u.fs) = true := by
      unfold parentOkF
      rcases hdst with hd | hd
      · simp [hne, hdrop, hd]
      · have : isDirF pr.2.dropLast (FS.remove pr.2 u.fs) = true := by
          rw [hdrop]
          exact isDirF_of_lookup_dir (by rw [FS.lookup_remove_ne pr.2 DST u.fs hDstNe]; exact hd)
        simp [hne, this]
    have hstep : Polkadots.symlink_replacing pr.1 pr.2 u =
        { err := none, fs := FS.set pr.2 (.link pr.1) (FS.remove pr.2 u.fs), warns := u.warns } := by
      unfold Polkadots.symlink_replacing
      rw [if_neg (by simp [hu])]
      rcases hslots pr (List.mem_cons_self _ _) with hl | ⟨t, hl⟩
      · have hparent' : parentOkF pr.2 u.fs = true := by
          rw [FS.remove_of_lookup_none pr.2 u.fs hl] at hparent
          exact hparent
        have hrm : Polkadots.rmlink pr.2 true u.fs = ⟨none, u.fs, []⟩ := by
          unfold Polkadots.rmlink
          rw [if_neg (by simp [islinkF_of_lookup_none hl]),
            if_pos (by simp [existsF_of_lookup_none hl]), if_pos rfl]
        rw [hrm]
        dsimp only
        unfold symlinkOp
        rw [if_neg (by simp [hl]), if_pos hparent']
        rw [FS.remove_of_lookup_none pr.2 u.fs hl]
        dsimp only
        rw [hu]
      · have hrm : Polkadots.rmlink pr.2 true u.fs = ⟨none, FS.remove pr.2 u.fs, []⟩ := by
          unfold Polkadots.rmlink
          rw [if_pos (islinkF_of_lookup_link hl)]
        rw [hrm]
        dsimp only
        unfold symlinkOp
        rw [if_neg (by simp), if_pos hparent]
        dsimp only
        rw [hu]
    show (linkFold rest (Polkadots.symlink_replacing pr.1 pr.2 u)).err = none
    rw [hstep]
    apply ih
    · rfl
    · intro x hx
      dsimp only
      by_cases hx2 : x.2 = pr.2
      · rw [hx2, FS.lookup_set_self]
        exact Or.inr ⟨pr.1, rfl⟩
      · rw [FS.lookup_set_ne _ _ _ _ hx2, FS.lookup_remove_ne _ _ _ hx2]
        exact hslots x (List.mem_cons_of_mem _ hx)
    · exact fun x hx => hshape x (List.mem_cons_of_mem _ hx)
    · rcases hdst with hd | hd
      · exact Or.inl hd
      · refine Or.inr ?_
        dsimp only
        rw [FS.lookup_set_ne _ _ _ _ hDstNe, FS.lookup_remove_ne _ _ _ hDstNe]
        exact hd

/-- When every slot already carries exactly the link the fold would create,
the fold succeeds and changes nothing (extensionally). -/
theorem linkFold_noop (DST : Path) (S : FS) :
    ∀ (l : List (Path × Path)) (u : Res), u.err = none → FS.equiv u.fs S →
    (∀ pr ∈ l, FS.lookup pr.2 S = some (.link pr.1)) →
    (∀ pr ∈ l, pr.2.dropLast = DST ∧ pr.2 ≠ []) →
    (DST = [] ∨ FS.lookup DST S = some .dir) →
    (linkFold l u).err = none ∧ FS.equiv (linkFold l u).fs S := by
  intro l
  induction l with
  | nil => intro u hu hequiv _ _ _; exact ⟨hu, hequiv⟩
  | cons pr rest ih =>
    intro u hu hequiv hslots hshape hdst
    obtain ⟨hdrop, hne⟩ := hshape pr (List.mem_cons_self _ _)
    have hDstNe : DST ≠ pr.2 := by
      intro hcontra
      have h1 : pr.2.dropLast = pr.2 := by rw [← hcontra] at hdrop ⊢; exact hdrop
      have hlen := congrArg List.length h1
      rw [List.length_dropLast] at hlen
      have : 0 < pr.2.length := List.length_pos.mpr hne
      omega
    have hlk : FS.lookup pr.2 u.fs = some (.link pr.1) := by
      rw [hequiv pr.2]
      exact hslots pr (List.mem_cons_self _ _)
    have hparent : parentOkF pr.2 (FS.remove pr.2 u.fs) = true := by
      unfold parentOkF
      rcases hdst with hd | hd
      · simp [hne, hdrop, hd]
      · have : isDirF pr.2.dropLast (FS.remove pr.2 u.fs) = true := by
          rw [hdrop]
          refine isDirF_of_lookup_dir ?_
          rw [FS.lookup_remove_ne pr.2 DST u.fs hDstNe, hequiv DST]
          exact hd
        simp [hne, this]
    have hstep : Polkadots.symlink_replacing pr.1 pr.2 u =
        { err := none, fs := FS.set pr.2 (.link pr.1) (FS.remove pr.2 u.fs), warns := u.warns } := by
      unfold Polkadots.symlink_replacing
      rw [if_neg (by simp [hu])]
      have hrm : Polkadots.rmlink pr.2 true u.fs = ⟨none, FS.remove pr.2 u.fs, []⟩ := by
        unfold Polkadots.rmlink
        rw [if_pos (islinkF_of_lookup_link hlk)]
      rw [hrm]
      dsimp only
      unfold symlinkOp
      rw [if_neg (by simp), if_pos hparent]
      dsimp only
      rw [hu]
    show (linkFold rest (Polkadots.symlink_replacing pr.1 pr.2 u)).err = none ∧
      FS.equiv (linkFold rest (Polkadots.symlink_replacing pr.1 pr.2 u)).fs S
    rw [hstep]
    apply ih
    · rfl
    · intro k
      dsimp only
      by_cases hk : k = pr.2
      · rw [hk, FS.lookup_set_self]
        exact (hslots pr (List.mem_cons_self _ _)).symm
      · rw [FS.lookup_set_ne _ _ _ _ hk, FS.lookup_remove_ne _ _ _ hk]
        exact hequiv k
    · exact fun x hx => hslots x (List.mem_cons_of_mem _ hx)
    · exact fun x hx => hshape x (List.mem_cons_of_mem _ hx)
    · exact hdst

/-- Shape of a glob match: the pattern itself (literal case) or an entry of
the pattern directory. -/
theorem mem_glob_shape {pat : Path} {s : FS} {m : Path} (hm : m ∈ glob pat s) :
    m = pat ∨ ∃ n ns last, pat.getLast? = some last ∧ hasWild last = true ∧
      globNames pat.dropLast s = some ns ∧ n ∈ ns ∧ globNameMatch last n = true ∧
      m = pat.dropLast ++ [n] := by
  unfold glob at hm
  cases hlast : pat.getLast? with
  | none => rw [hlast] at hm; simp at hm
  | some last =>
    rw [hlast] at hm
    dsimp only at hm
    by_cases hw : hasWild last = true
    · rw [if_pos hw] at hm
      cases hns : globNames pat.dropLast s with
      | none => rw [hns] at hm; simp at hm
      | some ns =>
        rw [hns] at hm
        dsimp only at hm
        obtain ⟨n, hn, rfl⟩ := List.mem_map.mp hm
        obtain ⟨hn1, hn2⟩ := List.mem_filter.mp hn
        exact Or.inr ⟨n, ns, last, rfl, hw, rfl, hn1, hn2, rfl⟩
    · rw [if_neg hw] at hm
      by_cases hex : (FS.lookup pat s).isSome = true
      · rw [if_pos hex] at hm
        exact Or.inl (by simpa using hm)
      · rw [if_neg hex] at hm
        simp at hm

/-- Matches of the same pattern with the same basename are equal. -/
theorem glob_basename_inj (pat : Path) (s : FS) :
    ∀ m ∈ glob pat s, ∀ m' ∈ glob pat s, basename m = basename m' → m = m' := by
  intro m hm m' hm' hbn
  have hpatne : pat.getLast? ≠ none → pat ≠ [] := by
    intro h hc
    rw [hc] at h
    exact h rfl
  rcases mem_glob_shape hm with h1 | ⟨n, ns, last, hlast, hw, hns, _, _, rfl⟩
  · rcases mem_glob_shape hm' with h2 | ⟨n', ns', last', hlast', hw', hns', _, _, rfl⟩
    · rw [h1, h2]
    · rw [basename_concat] at hbn
      rw [h1] at hbn ⊢
      have hne : pat ≠ [] := hpatne (by rw [hlast']; simp)
      conv_lhs => rw [eq_dropLast_concat hne]
      rw [hbn]
  · rcases mem_glob_shape hm' with h2 | ⟨n', ns', last', hlast', hw', hns', _, _, rfl⟩
    · rw [h2] at hbn ⊢
      rw [basename_concat] at hbn
      have hne : pat ≠ [] := hpatne (by rw [hlast]; simp)
      conv_rhs => rw [eq_dropLast_concat hne]
      rw [← hbn]
    · rw [basename_concat, basename_concat] at hbn
      rw [hbn]

/-- Claim C9: with dir_mode off and the destination an existing real
directory, execute takes the glob branch: it is exactly the guard-then-link
fold over the filesystem matches of the source pattern, each linked at
destination/basename; when moreover every such slot is absent or a link, no
NotALinkError is raised and each match gets its link inside the
destination. -/
theorem claim9_destination_directory_glob
    (a : Polkadots.SymlinkAction) (s : FS)
    (hdm : a.dir_mode = false)
    (hdir : FS.lookup a.destination s = some .dir) :
    Polkadots.SymlinkAction.execute a s =
      linkFold ((glob a.source s).map (fun m => (m, a.destination ++ [basename m])))
        ⟨none, s, []⟩ ∧
    ((∀ m ∈ glob a.source s,
        FS.lookup (a.destination ++ [basename m]) s = none ∨
        islinkF (a.destination ++ [basename m]) s = true) →
      (Polkadots.SymlinkAction.execute a s).err = none ∧
      ∀ m ∈ glob a.source s,
        FS.lookup (a.destination ++ [basename m]) (Polkadots.SymlinkAction.execute a s).fs =
          some (.link m)) := by
  have hbranch : Polkadots.SymlinkAction.execute a s =
      linkFold ((glob a.source s).map (fun m => (m, a.destination ++ [basename m])))
        ⟨none, s, []⟩ := by
    unfold Polkadots.SymlinkAction.execute
    rw [hdm]
    rw [if_neg (by simp)]
    rw [if_pos (by simp [isDirF_of_lookup_dir hdir, islinkF_of_lookup_dir hdir])]
    unfold linkFold
    rw [List.foldl_map]
  refine ⟨hbranch, fun hclear => ?_⟩
  have hshape : ∀ pr ∈ (glob a.source s).map (fun m => (m, a.destination ++ [basename m])),
      pr.2.dropLast = a.destination ∧ pr.2 ≠ [] := by
    intro pr hpr
    obtain ⟨m, _, rfl⟩ := List.mem_map.mp hpr
    constructor
    · simp
    · simp
  have hslots : ∀ pr ∈ (glob a.source s).map (fun m => (m, a.destination ++ [basename m])),
      FS.lookup pr.2 s = none ∨
      ∃ t, FS.lookup pr.2 s = some (.link t) := by
    intro pr hpr
    obtain ⟨m, hm, rfl⟩ := List.mem_map.mp hpr
    rcases hclear m hm with h | h
    · exact Or.inl h
    · exact Or.inr (islinkF_eq_true_iff.mp h)
  have hok : (Polkadots.SymlinkAction.execute a s).err = none := by
    rw [hbranch]
    exact linkFold_clear_ok a.destination _ ⟨none, s, []⟩ rfl hslots hshape (Or.inr hdir)
  refine ⟨hok, ?_⟩
  have hinj : ∀ pr ∈ (glob a.source s).map (fun m => (m, a.destination ++ [basename m])),
      ∀ pr' ∈ (glob a.source s).map (fun m => (m, a.destination ++ [basename m])),
      pr.2 = pr'.2 → pr.1 = pr'.1 := by
    intro pr hpr pr' hpr' h2
    obtain ⟨m, hm, rfl⟩ := List.mem_map.mp hpr
    obtain ⟨m', hm', rfl⟩ := List.mem_map.mp hpr'
    dsimp only at h2 ⊢
    have hbn : basename m = basename m' := by
      have := List.append_cancel_left h2
      exact List.singleton_injective this
    exact glob_basename_inj a.source s m hm m' hm' hbn
  obtain ⟨_, hslots', _, _⟩ :=
    linkFold_ok_facts ((glob a.source s).map (fun m => (m, a.destination ++ [basename m])))
      ⟨none, s, []⟩ hinj (by rw [← hbranch]; exact hok)
  intro m hm
  rw [hbranch]
  exact hslots' (m, a.destination ++ [basename m]) (List.mem_map.mpr ⟨m, hm, rfl⟩)

/-- Witness for claim C9 at a concrete state. -/
theorem claim9_witness :
    Polkadots.SymlinkAction.execute ⟨["s", "*"], ["d"], false⟩
        [(["s"], Node.dir), (["s", "a"], Node.file "x"), (["d"], Node.dir)] =
      linkFold
        ((glob ["s", "*"] [(["s"], Node.dir), (["s", "a"], Node.file "x"), (["d"], Node.dir)]).map
          (fun m => (m, ["d"] ++ [basename m])))
        ⟨none, [(["s"], Node.dir), (["s", "a"], Node.file "x"), (["d"], Node.dir)], []⟩ ∧
    (Polkadots.SymlinkAction.execute ⟨["s", "*"], ["d"], false⟩
        [(["s"], Node.dir), (["s", "a"], Node.file "x"), (["d"], Node.dir)]).err = none ∧
    ∀ m ∈ glob ["s", "*"] [(["s"], Node.dir), (["s", "a"], Node.file "x"), (["d"], Node.dir)],
      FS.lookup (["d"] ++ [basename m])
          (Polkadots.SymlinkAction.execute ⟨["s", "*"], ["d"], false⟩
            [(["s"], Node.dir), (["s", "a"], Node.file "x"), (["d"], Node.dir)]).fs =
        some (.link m) := by
  have h := claim9_destination_directory_glob ⟨["s", "*"], ["d"], false⟩
    [(["s"], Node.dir), (["s", "a"], Node.file "x"), (["d"], Node.dir)] rfl (by decide)
  have hclear : ∀ m ∈ glob (["s", "*"] : Path)
      [(["s"], Node.dir), (["s", "a"], Node.file "x"), (["d"], Node.dir)],
      FS.lookup (["d"] ++ [basename m])
          [(["s"], Node.dir), (["s", "a"], Node.file "x"), (["d"], Node.dir)] = none ∨
      islinkF (["d"] ++ [basename m])
          [(["s"], Node.dir), (["s", "a"], Node.file "x"), (["d"], Node.dir)] = true := by
    intro m hm
    have hg : glob (["s", "*"] : Path)
        [(["s"], Node.dir), (["s", "a"], Node.file "x"), (["d"], Node.dir)] = [["s", "a"]] := by
      decide
    rw [hg] at hm
    have hm' : m = ["s", "a"] := by simpa using hm
    subst hm'
    exact Or.inl (by decide)
  exact ⟨h.1, (h.2 hclear).1, (h.2 hclear).2⟩

/-! Machinery for the idempotence analysis. -/

theorem remove_remove_self (p : Path) (s : FS) :
    FS.remove p (FS.remove p s) = FS.remove p s := by
  induction s with
  | nil => rfl
  | cons e t ih =>
    obtain ⟨q, v⟩ := e
    by_cases h : q = p <;> simp [FS.remove, h, ih]

theorem isDirF_eq_true_iff {p : Path} {s : FS} :
    isDirF p s = true ↔ ∃ x, resolvePath p s = some x ∧ FS.lookup x s = some .dir := by
  unfold isDirF
  cases hres : resolvePath p s with
  | none => simp
  | some x =>
    dsimp only
    cases hl : FS.lookup x s with
    | none => simp [hl]
    | some n => cases n <;> simp [hl]

/-- The current SymlinkAction.execute in directory mode is the pair fold over
the source listing. -/
theorem execute_dir_branch (a : Polkadots.SymlinkAction) (s : FS) (names : List String)
    (hdm : a.dir_mode = true) (hlist : listdirF a.source s = .ok names) :
    Polkadots.SymlinkAction.execute a s =
      linkFold (names.map (fun f => (a.source ++ [f], a.destination ++ [f])))
        ⟨none, s, []⟩ := by
  unfold Polkadots.SymlinkAction.execute
  rw [hdm, if_pos rfl, hlist]
  unfold linkFold
  rw [List.foldl_map]

/-- The current SymlinkAction.execute with dir_mode off and a real directory
destination is the pair fold over the glob matches. -/
theorem execute_glob_branch (a : Polkadots.SymlinkAction) (s : FS)
    (hdm : a.dir_mode = false) (hdir : isDirF a.destination s = true)
    (hnl : islinkF a.destination s = false) :
    Polkadots.SymlinkAction.execute a s =
      linkFold ((glob a.source s).map (fun m => (m, a.destination ++ [basename m])))
        ⟨none, s, []⟩ := by
  unfold Polkadots.SymlinkAction.execute
  rw [hdm]
  rw [if_neg (by simp)]
  rw [if_pos (by simp [hdir, hnl])]
  unfold linkFold
  rw [List.foldl_map]

/-- Evaluation of listdir on a literal directory entry. -/
theorem listdirF_of_dir {p : Path} {s : FS} (h : FS.lookup p s = some .dir) :
    listdirF p s = .ok (childNames p s) := by
  unfold listdirF
  rw [resolvePath_of_lookup_dir h]
  dsimp only
  rw [h]

/-- Evaluation of the glob name source on a present directory. -/
theorem globNames_eq {dirn : Path} {s : FS}
    (hd : dirn = [] ∨ FS.lookup dirn s = some .dir) :
    globNames dirn s = some (childNames dirn s) := by
  by_cases he : dirn.isEmpty = true
  · have h0 : dirn = [] := by simpa using he
    subst h0
    rfl
  · rcases hd with h0 | hdir
    · rw [h0] at he; simp at he
    · unfold globNames
      rw [if_neg he, resolvePath_of_lookup_dir hdir]
      dsimp only
      rw [hdir]

/-- Introduction form for wildcard glob membership. -/
theorem mem_glob_intro {pat : Path} {last : String} (hlast : pat.getLast? = some last)
    (hw : hasWild last = true) {s : FS} {ns : List String} {n : String}
    (hns : globNames pat.dropLast s = some ns) (hn : n ∈ ns)
    (hmatch : globNameMatch last n = true) :
    pat.dropLast ++ [n] ∈ glob pat s := by
  unfold glob
  rw [hlast]
  dsimp only
  rw [if_pos hw, hns]
  dsimp only
  exact List.mem_map.mpr ⟨n, List.mem_filter.mpr ⟨hn, hmatch⟩, rfl⟩

theorem mkdirStep_err_stable (qs : List Path) (e : Err) (v : FS) :
    qs.foldl Polkadots.mkdirStep (some e, v) = (some e, v) := by
  induction qs with
  | nil => rfl
  | cons q rest ih =>
    rw [List.foldl_cons]
    have h : Polkadots.mkdirStep (some e, v) q = (some e, v) := rfl
    rw [h, ih]

theorem mkdirStep_ok {q : Path} {v v' : FS}
    (h : Polkadots.mkdirStep (none, v) q = (none, v')) :
    dirEntryOk q v' ∧ (v' = v ∨ (FS.lookup q v = none ∧ v' = FS.set q .dir v)) := by
  unfold Polkadots.mkdirStep at h
  dsimp only at h
  cases hl : FS.lookup q v with
  | some n =>
    cases n with
    | dir =>
      rw [hl] at h
      dsimp only at h
      obtain rfl : v = v' := congrArg Prod.snd h
      exact ⟨Or.inl hl, Or.inl rfl⟩
    | link t =>
      rw [hl] at h
      dsimp only at h
      by_cases hdir : isDirF q v = true
      · rw [if_pos hdir] at h
        obtain rfl : v = v' := congrArg Prod.snd h
        exact ⟨Or.inr ⟨⟨t, hl⟩, hdir⟩, Or.inl rfl⟩
      · rw [if_neg hdir] at h
        exact absurd (congrArg Prod.fst h) (by simp)
    | file c =>
      rw [hl] at h
      exact absurd (congrArg Prod.fst h) (by simp)
  | none =>
    rw [hl] at h
    dsimp only at h
    by_cases hp : parentOkF q v = true
    · rw [if_pos hp] at h
      have hv : v' = FS.set q .dir v := (congrArg Prod.snd h).symm
      refine ⟨Or.inl ?_, Or.inr ⟨rfl, hv⟩⟩
      rw [hv]
      exact FS.lookup_set_self q .dir v
    · rw [if_neg hp] at h
      exact absurd (congrArg Prod.fst h) (by simp)

theorem mkdirStep_pres {k q : Path} {v v' : FS}
    (h : Polkadots.mkdirStep (none, v) q = (none, v'))
    (hk : dirEntryOk k v) : dirEntryOk k v' := by
  rcases (mkdirStep_ok h).2 with rfl | ⟨hq, rfl⟩
  · exact hk
  · rcases hk with hd | ⟨⟨t, hl⟩, hdir⟩
    · left
      have hkq : k ≠ q := by
        intro hc
        rw [hc, hq] at hd
        cases hd
      rw [FS.lookup_set_ne q k .dir v hkq]
      exact hd
    · right
      have hkq : k ≠ q := by
        intro hc
        rw [hc, hq] at hl
        cases hl
      refine ⟨⟨t, by rw [FS.lookup_set_ne q k .dir v hkq]; exact hl⟩, ?_⟩
      obtain ⟨x, hres, hx⟩ := isDirF_eq_true_iff.mp hdir
      refine isDirF_eq_true_iff.mpr ⟨x, ?_, ?_⟩
      · rw [resolvePath_set_nonlink (by intro t'; simp) (by intro t'; rw [hq]; simp) k]
        exact hres
      · have hxq : x ≠ q := by
          intro hc
          rw [hc, hq] at hx
          cases hx
        rw [FS.lookup_set_ne q x .dir v hxq]
        exact hx

theorem mkdir_fold_pres :
    ∀ (qs : List Path) (v s1 : FS),
    qs.foldl Polkadots.mkdirStep (none, v) = (none, s1) →
    ∀ k, dirEntryOk k v → dirEntryOk k s1 := by
  intro qs
  induction qs with
  | nil =>
    intro v s1 h k hk
    obtain rfl : v = s1 := congrArg Prod.snd h
    exact hk
  | cons q rest ih =>
    intro v s1 h k hk
    rw [List.foldl_cons] at h
    cases hstep : Polkadots.mkdirStep (none, v) q with
    | mk e1 v1 =>
      rw [hstep] at h
      cases e1 with
      | some e =>
        rw [mkdirStep_err_stable rest e v1] at h
        exact absurd (congrArg Prod.fst h) (by simp)
      | none => exact ih v1 s1 h k (mkdirStep_pres hstep hk)

theorem mkdir_fold_ok :
    ∀ (qs : List Path) (v s1 : FS),
    qs.foldl Polkadots.mkdirStep (none, v) = (none, s1) →
    (∀ q ∈ qs, dirEntryOk q s1) := by
  intro qs
  induction qs with
  | nil => intro v s1 _ q hq; cases hq
  | cons q rest ih =>
    intro v s1 h k hk
    rw [List.foldl_cons] at h
    cases hstep : Polkadots.mkdirStep (none, v) q with
    | mk e1 v1 =>
      rw [hstep] at h
      cases e1 with
      | some e =>
        rw [mkdirStep_err_stable rest e v1] at h
        exact absurd (congrArg Prod.fst h) (by simp)
      | none =>
        rcases List.mem_cons.mp hk with rfl | hmem
        · exact mkdir_fold_pres rest v1 s1 h k (mkdirStep_ok hstep).1
        · exact ih v1 s1 h k hmem

theorem mkdir_fold_rerun :
    ∀ (qs : List Path) (s1 : FS),
    (∀ q ∈ qs, dirEntryOk q s1) →
    qs.foldl Polkadots.mkdirStep (none, s1) = (none, s1) := by
  intro qs
  induction qs with
  | nil => intro s1 _; rfl
  | cons q rest ih =>
    intro s1 hall
    have hstep : Polkadots.mkdirStep (none, s1) q = (none, s1) := by
      unfold Polkadots.mkdirStep
      dsimp only
      rcases hall q (List.mem_cons_self _ _) with hd | ⟨⟨t, hl⟩, hdir⟩
      · rw [hd]
      · rw [hl]
        dsimp only
        rw [if_pos hdir]
    rw [List.foldl_cons, hstep]
    exact ih s1 (fun x hx => hall x (List.mem_cons_of_mem _ hx))

/-- Shape of the Concatenate fold: whatever happens, the final state is the
starting state with some contents written at the output path. -/
theorem catStep_fold_shape (q : Path) (s : FS) :
    ∀ (srcs : List Path) (buf : String),
    ∃ e B, srcs.foldl (Polkadots.catStep q) (⟨none, FS.set q (.file buf) s, []⟩, buf) =
      (⟨e, FS.set q (.file B) s, []⟩, B) := by
  intro srcs
  induction srcs with
  | nil => intro buf; exact ⟨none, buf, rfl⟩
  | cons src rest ih =>
    intro buf
    have hstep : Polkadots.catStep q (⟨none, FS.set q (.file buf) s, []⟩, buf) src =
        (match readF src (FS.set q (.file buf) s) with
          | .error e => ((⟨some e, FS.set q (.file buf) s, []⟩ : Res), buf)
          | .ok c => ((⟨none, FS.set q (.file (buf ++ c)) s, []⟩ : Res), buf ++ c)) := by
      unfold Polkadots.catStep
      rw [if_neg (by simp)]
      cases readF src (FS.set q (.file buf) s) with
      | error e => rfl
      | ok c =>
        dsimp only
        rw [FS.set_set_self]
    rw [List.foldl_cons, hstep]
    cases hr : readF src (FS.set q (.file buf) s) with
    | error e =>
      dsimp only
      rw [catStep_fold_err q rest _ buf (by simp)]
      exact ⟨some e, buf, rfl⟩
    | ok c =>
      dsimp only
      exact ih (buf ++ c)

/-- Characterization of wildcard glob membership. -/
theorem mem_glob_wild {pat : Path} {last : String} (hlast : pat.getLast? = some last)
    (hw : hasWild last = true) {s : FS} {ns : List String}
    (hns : globNames pat.dropLast s = some ns) {m : Path} :
    m ∈ glob pat s ↔ ∃ n ∈ ns, globNameMatch last n = true ∧ m = pat.dropLast ++ [n] := by
  unfold glob
  rw [hlast]
  dsimp only
  rw [if_pos hw, hns]
  dsimp only
  constructor
  · intro hm
    obtain ⟨n, hn, rfl⟩ := List.mem_map.mp hm
    obtain ⟨hn1, hn2⟩ := List.mem_filter.mp hn
    exact ⟨n, hn1, hn2, rfl⟩
  · rintro ⟨n, hn, hmatch, rfl⟩
    exact List.mem_map.mpr ⟨n, List.mem_filter.mpr ⟨hn, hmatch⟩, rfl⟩

/-- Claim C2, counterexample: one Copy action (directory mode, overwrite on,
destination inside its own source directory) run twice against a clean
filesystem: the first run succeeds, creating a new file inside the source
directory, but the identical second run fails with SameFileError because its
fresh source listing picks up the file the first run created.  This refutes
both run-twice-equals-run-once and per-action idempotence as stated. -/
theorem claim2_counterexample :
    Polkadots.runActions [.copy ⟨["S"], ["S", "m"], true, true⟩]
        [(["S"], Node.dir), (["S", "n"], Node.file "c")] =
      ⟨none, [(["S"], Node.dir), (["S", "n"], Node.file "c"), (["S", "m"], Node.file "c")], []⟩ ∧
    (Polkadots.runActions [.copy ⟨["S"], ["S", "m"], true, true⟩]
        [(["S"], Node.dir), (["S", "n"], Node.file "c"), (["S", "m"], Node.file "c")]).err =
      some .sameFileError := ⟨by decide, by decide⟩

/-- Claim C2 (amended): re-running an individual action on its own
successful output succeeds and changes nothing for Concatenate and
MakeDirectory actions unconditionally, for single-mode Symlink actions, and
for directory-mode and wildcard-glob Symlink actions whose source listing
directory and destination are real directory entries; Copy actions, and
whole lists, are exempted by the counterexample. -/
theorem claim2_individual_idempotence :
    (∀ (a : Polkadots.CatAction) (s : FS) (r : Res),
      Polkadots.CatAction.execute a s = r → r.err = none →
      Polkadots.CatAction.execute a r.fs = ⟨none, r.fs, []⟩) ∧
    (∀ (a : Polkadots.MkdirAction) (s : FS) (r : Res),
      Polkadots.MkdirAction.execute a s = r → r.err = none →
      Polkadots.MkdirAction.execute a r.fs = ⟨none, r.fs, []⟩) ∧
    (∀ (a : Polkadots.SymlinkAction) (s : FS) (r : Res),
      a.dir_mode = false →
      (isDirF a.destination s && !islinkF a.destination s) = false →
      Polkadots.SymlinkAction.execute a s = r → r.err = none →
      Polkadots.SymlinkAction.execute a r.fs = ⟨none, r.fs, []⟩) ∧
    (∀ (a : Polkadots.SymlinkAction) (s : FS) (r : Res),
      a.dir_mode = true →
      FS.lookup a.source s = some .dir →
      FS.lookup a.destination s = some .dir →
      Polkadots.SymlinkAction.execute a s = r → r.err = none →
      (Polkadots.SymlinkAction.execute a r.fs).err = none ∧
      FS.equiv (Polkadots.SymlinkAction.execute a r.fs).fs r.fs) ∧
    (∀ (a : Polkadots.SymlinkAction) (s : FS) (r : Res) (last : String),
      a.dir_mode = false →
      FS.lookup a.destination s = some .dir →
      a.source.getLast? = some last →
      hasWild last = true →
      (a.source.dropLast = [] ∨ FS.lookup a.source.dropLast s = some .dir) →
      Polkadots.SymlinkAction.execute a s = r → r.err = none →
      (Polkadots.SymlinkAction.execute a r.fs).err = none ∧
      FS.equiv (Polkadots.SymlinkAction.execute a r.fs).fs r.fs) := by
  refine ⟨?_, ?_, ?_, ?_, ?_⟩
  -- Concatenate
  · intro a s r hexec herr
    unfold Polkadots.CatAction.execute at hexec
    cases hopen : openWb a.destination s with
    | error e =>
      rw [hopen] at hexec
      dsimp only at hexec
      rw [← hexec] at herr
      simp at herr
    | ok q =>
      rw [hopen] at hexec
      dsimp only at hexec
      obtain ⟨e, B, hshape⟩ := catStep_fold_shape q s a.sources ""
      rw [hshape] at hexec
      dsimp only at hexec
      subst hexec
      have he : e = none := herr
      subst he
      show Polkadots.CatAction.execute a (FS.set q (.file B) s) =
        ⟨none, FS.set q (.file B) s, []⟩
      have hql := lookup_nonlink_of_openWb hopen
      have hopen2 : openWb a.destination (FS.set q (.file B) s) = .ok q := by
        unfold openWb
        rw [resolvePath_set_nonlink (by intro t; simp) hql a.destination,
          (openWb_ok_facts hopen).1]
        dsimp only
        rw [FS.lookup_set_self]
      unfold Polkadots.CatAction.execute
      rw [hopen2]
      dsimp only
      rw [FS.set_set_self, hshape]
  -- MakeDirectory
  · intro a s r hexec herr
    unfold Polkadots.MkdirAction.execute at hexec
    dsimp only at hexec
    cases hst : (if a.parents then Polkadots.ancestorsOf a.directory
        else [a.directory]).foldl Polkadots.mkdirStep (none, s) with
    | mk e1 s1 =>
      rw [hst] at hexec
      dsimp only at hexec
      subst hexec
      have he : e1 = none := herr
      subst he
      show Polkadots.MkdirAction.execute a s1 = ⟨none, s1, []⟩
      unfold Polkadots.MkdirAction.execute
      dsimp only
      rw [mkdir_fold_rerun _ s1 (mkdir_fold_ok _ s s1 hst)]
  -- Symlink, single mode
  · intro a s r hdm hcond hexec herr
    unfold Polkadots.SymlinkAction.execute at hexec
    rw [hdm] at hexec
    rw [if_neg (by simp)] at hexec
    rw [if_neg (by simp [hcond])] at hexec
    have hok : (Polkadots.symlink_replacing a.source a.destination ⟨none, s, []⟩).err = none := by
      rw [hexec]; exact herr
    obtain ⟨hshape, hslot, hparent⟩ :=
      symlink_replacing_ok_shape (u := ⟨none, s, []⟩) rfl hok
    rw [hshape] at hexec
    subst hexec
    show Polkadots.SymlinkAction.execute a
        (FS.set a.destination (.link a.source) (FS.remove a.destination s)) =
      ⟨none, FS.set a.destination (.link a.source) (FS.remove a.destination s), []⟩
    have hlk : FS.lookup a.destination
        (FS.set a.destination (.link a.source) (FS.remove a.destination s)) =
        some (.link a.source) := FS.lookup_set_self _ _ _
    unfold Polkadots.SymlinkAction.execute
    rw [hdm]
    rw [if_neg (by simp)]
    rw [if_neg (by simp [islinkF_of_lookup_link hlk])]
    unfold Polkadots.symlink_replacing
    rw [if_neg (by simp)]
    have hrm : Polkadots.rmlink a.destination true
        (FS.set a.destination (.link a.source) (FS.remove a.destination s)) =
        ⟨none, FS.remove a.destination s, []⟩ := by
      unfold Polkadots.rmlink
      rw [if_pos (islinkF_of_lookup_link hlk)]
      rw [FS.remove_set_self, remove_remove_self]
    rw [hrm]
    dsimp only
    unfold symlinkOp
    rw [if_neg (by simp), if_pos hparent]
  -- Symlink, directory mode
  · intro a s r hdm hsrc hdst hexec herr
    have hbranch := execute_dir_branch a s (childNames a.source s) hdm (listdirF_of_dir hsrc)
    have hok : (linkFold ((childNames a.source s).map
        (fun f => (a.source ++ [f], a.destination ++ [f]))) ⟨none, s, []⟩).err = none := by
      rw [← hbranch, hexec]; exact herr
    have hinj : ∀ pr ∈ (childNames a.source s).map
        (fun f => (a.source ++ [f], a.destination ++ [f])),
        ∀ pr' ∈ (childNames a.source s).map
          (fun f => (a.source ++ [f], a.destination ++ [f])),
        pr.2 = pr'.2 → pr.1 = pr'.1 := by
      intro pr hpr pr' hpr' h2
      obtain ⟨f, hf, rfl⟩ := List.mem_map.mp hpr
      obtain ⟨f', hf', rfl⟩ := List.mem_map.mp hpr'
      dsimp only at h2 ⊢
      rw [List.singleton_injective (List.append_cancel_left h2)]
    obtain ⟨_, hslots, hpres, _⟩ := linkFold_ok_facts _ ⟨none, s, []⟩ hinj hok
    have hrfs : r.fs = (linkFold ((childNames a.source s).map
        (fun f => (a.source ++ [f], a.destination ++ [f]))) ⟨none, s, []⟩).fs := by
      rw [← hbranch, hexec]
    have hsrc1 : FS.lookup a.source r.fs = some .dir := by
      rw [hrfs]
      by_cases hc : ∀ pr ∈ (childNames a.source s).map
          (fun f => (a.source ++ [f], a.destination ++ [f])), a.source ≠ pr.2
      · rw [hpres a.source hc]
        exact hsrc
      · exfalso
        push_neg at hc
        obtain ⟨pr, hpr, hcontra⟩ := hc
        have hbad := linkFold_bad _ ⟨none, s, []⟩ rfl pr hpr
          (Or.inr (by rw [← hcontra]; exact hsrc))
        rw [hok] at hbad
        simp at hbad
    have hdst1 : FS.lookup a.destination r.fs = some .dir := by
      rw [hrfs]
      have hc : ∀ pr ∈ (childNames a.source s).map
          (fun f => (a.source ++ [f], a.destination ++ [f])), a.destination ≠ pr.2 := by
        intro pr hpr
        obtain ⟨f, hf, rfl⟩ := List.mem_map.mp hpr
        dsimp only
        intro hcontra
        have hlen := congrArg List.length hcontra
        simp at hlen
      rw [hpres a.destination hc]
      exact hdst
    have hmem1 : ∀ f, f ∈ childNames a.source r.fs → f ∈ childNames a.source s := by
      intro f hf
      rw [mem_childNames_lookup] at hf ⊢
      by_cases hc : ∀ pr ∈ (childNames a.source s).map
          (fun f => (a.source ++ [f], a.destination ++ [f])), a.source ++ [f] ≠ pr.2
      · rw [hrfs, hpres (a.source ++ [f]) hc] at hf
        exact hf
      · push_neg at hc
        obtain ⟨pr, hpr, hcontra⟩ := hc
        obtain ⟨f', hf', rfl⟩ := List.mem_map.mp hpr
        dsimp only at hcontra
        have hff : f = f' := by
          have h1 := congrArg basename hcontra
          rw [basename_concat, basename_concat] at h1
          exact h1
        rw [hff]
        rw [mem_childNames_lookup] at hf'
        exact hf'
    have hbranch1 := execute_dir_branch a r.fs (childNames a.source r.fs) hdm
      (listdirF_of_dir hsrc1)
    rw [hbranch1]
    refine linkFold_noop a.destination r.fs _ ⟨none, r.fs, []⟩ rfl (FS.equiv_refl _) ?_ ?_
      (Or.inr hdst1)
    · intro pr hpr
      obtain ⟨f, hf, rfl⟩ := List.mem_map.mp hpr
      dsimp only
      have hf' : f ∈ childNames a.source s := hmem1 f hf
      have hsl := hslots (a.source ++ [f], a.destination ++ [f])
        (List.mem_map.mpr ⟨f, hf', rfl⟩)
      rw [hrfs]
      exact hsl
    · intro pr hpr
      obtain ⟨f, hf, rfl⟩ := List.mem_map.mp hpr
      constructor
      · simp
      · simp
  -- Symlink, glob mode with a wildcard pattern
  · intro a s r last hdm hdst hlast hw hdirn hexec herr
    have hbranch := execute_glob_branch a s hdm (isDirF_of_lookup_dir hdst)
      (islinkF_of_lookup_dir hdst)
    have hok : (linkFold ((glob a.source s).map
        (fun m => (m, a.destination ++ [basename m]))) ⟨none, s, []⟩).err = none := by
      rw [← hbranch, hexec]; exact herr
    have hinj : ∀ pr ∈ (glob a.source s).map (fun m => (m, a.destination ++ [basename m])),
        ∀ pr' ∈ (glob a.source s).map (fun m => (m, a.destination ++ [basename m])),
        pr.2 = pr'.2 → pr.1 = pr'.1 := by
      intro pr hpr pr' hpr' h2
      obtain ⟨m, hm, rfl⟩ := List.mem_map.mp hpr
      obtain ⟨m', hm', rfl⟩ := List.mem_map.mp hpr'
      dsimp only at h2 ⊢
      exact glob_basename_inj a.source s m hm m' hm'
        (List.singleton_injective (List.append_cancel_left h2))
    obtain ⟨_, hslots, hpres, _⟩ := linkFold_ok_facts _ ⟨none, s, []⟩ hinj hok
    have hrfs : r.fs = (linkFold ((glob a.source s).map
        (fun m => (m, a.destination ++ [basename m]))) ⟨none, s, []⟩).fs := by
      rw [← hbranch, hexec]
    have hdst1 : FS.lookup a.destination r.fs = some .dir := by
      rw [hrfs]
      have hc : ∀ pr ∈ (glob a.source s).map (fun m => (m, a.destination ++ [basename m])),
          a.destination ≠ pr.2 := by
        intro pr hpr
        obtain ⟨m, hm, rfl⟩ := List.mem_map.mp hpr
        dsimp only
        intro hcontra
        have hlen := congrArg List.length hcontra
        simp at hlen
      rw [hpres a.destination hc]
      exact hdst
    have hdirn1 : a.source.dropLast = [] ∨ FS.lookup a.source.dropLast r.fs = some .dir := by
      rcases hdirn with h0 | hdir
      · exact Or.inl h0
      · refine Or.inr ?_
        rw [hrfs]
        by_cases hc : ∀ pr ∈ (glob a.source s).map
            (fun m => (m, a.destination ++ [basename m])), a.source.dropLast ≠ pr.2
        · rw [hpres a.source.dropLast hc]
          exact hdir
        · exfalso
          push_neg at hc
          obtain ⟨pr, hpr, hcontra⟩ := hc
          have hbad := linkFold_bad _ ⟨none, s, []⟩ rfl pr hpr
            (Or.inr (by rw [← hcontra]; exact hdir))
          rw [hok] at hbad
          simp at hbad
    have hnames0 := globNames_eq (s := s) hdirn
    have hnames1 := globNames_eq (s := r.fs) hdirn1
    have hmemglob : ∀ m ∈ glob a.source r.fs, m ∈ glob a.source s := by
      intro m hm
      obtain ⟨n, hn, hmatch, rfl⟩ := (mem_glob_wild hlast hw hnames1).mp hm
      refine (mem_glob_wild hlast hw hnames0).mpr ⟨n, ?_, hmatch, rfl⟩
      rw [mem_childNames_lookup] at hn ⊢
      by_cases hc : ∀ pr ∈ (glob a.source s).map
          (fun m => (m, a.destination ++ [basename m])), a.source.dropLast ++ [n] ≠ pr.2
      · rw [hrfs, hpres (a.source.dropLast ++ [n]) hc] at hn
        exact hn
      · push_neg at hc
        obtain ⟨pr, hpr, hcontra⟩ := hc
        obtain ⟨m0, hm0, rfl⟩ := List.mem_map.mp hpr
        dsimp only at hcontra
        obtain ⟨n0, hn0, hmatch0, rfl⟩ := (mem_glob_wild hlast hw hnames0).mp hm0
        have h1 := congrArg basename hcontra
        simp only [basename_concat] at h1
        rw [h1]
        exact (mem_childNames_lookup n0 _ s).mp hn0
    have hbranch1 := execute_glob_branch a r.fs hdm (isDirF_of_lookup_dir hdst1)
      (islinkF_of_lookup_dir hdst1)
    rw [hbranch1]
    refine linkFold_noop a.destination r.fs _ ⟨none, r.fs, []⟩ rfl (FS.equiv_refl _) ?_ ?_
      (Or.inr hdst1)
    · intro pr hpr
      obtain ⟨m, hm, rfl⟩ := List.mem_map.mp hpr
      dsimp only
      have hsl := hslots (m, a.destination ++ [basename m])
        (List.mem_map.mpr ⟨m, hmemglob m hm, rfl⟩)
      rw [hrfs]
      exact hsl
    · intro pr hpr
      obtain ⟨m, hm, rfl⟩ := List.mem_map.mp hpr
      refine ⟨by simp, by simp⟩

/-- Claim C2, witness for the amended idempotence: the Concatenate conjunct
applied to a concrete action and state. -/
theorem claim2_witness :
    Polkadots.CatAction.execute ⟨[["a"]], ["d"]⟩
        ((Polkadots.CatAction.execute ⟨[["a"]], ["d"]⟩
          [(["a"], Node.file "x")]).fs) =
      ⟨none, (Polkadots.CatAction.execute ⟨[["a"]], ["d"]⟩
        [(["a"], Node.file "x")]).fs, []⟩ :=
  claim2_individual_idempotence.1 ⟨[["a"]], ["d"]⟩ [(["a"], Node.file "x")]
    (Polkadots.CatAction.execute ⟨[["a"]], ["d"]⟩ [(["a"], Node.file "x")])
    rfl (by decide)

/-- Claim C8: a dry run performs no filesystem mutation and reports no
errors, and a non-dry run executes every action in order exactly as the
plain sequential executor does. -/
theorem claim8_dry_run (acts : List Polkadots.ActionVal) (s : FS) :
    Polkadots.mainRun acts true s = ⟨none, s, []⟩ ∧
    Polkadots.mainRun acts false s = Polkadots.runActions acts s := by
  constructor
  · have h : ∀ (l : List Polkadots.ActionVal) (r : Res),
        List.foldl (fun r a => if (true : Bool) = true then r else Polkadots.execStep r a) r l
          = r := by
      intro l
      induction l with
      | nil => intro r; rfl
      | cons a t ih =>
        intro r
        simp only [List.foldl, if_pos]
        exact ih r
    unfold Polkadots.mainRun
    exact h acts ⟨none, s, []⟩
  · unfold Polkadots.mainRun Polkadots.runActions
    have h : (fun (r : Res) (a : Polkadots.ActionVal) =>
        if (false : Bool) = true then r else Polkadots.execStep r a) = Polkadots.execStep := by
      funext r a
      simp
    rw [h]

end Polka
